import Mathlib

set_option linter.unusedVariables false

/-!
Verification of the metafield type-transformation and write-orchestration core
of the `shopify-metafield-fix` repository.

The Python source is shallowly embedded:
* Python runtime values are `PyVal` (strings, ints, floats, bools, None,
  lists, dicts).  Python floats are modelled as exact fractions (`PyFloat`,
  an integer numerator over a positive integer denominator), which agrees
  with CPython on every decimal string of modest precision appearing in this
  development; IEEE-754 rounding of very long decimals, `inf`/`nan` literals,
  exponent display forms and underscore digit separators are outside the
  model.
* Fallible code returns `Except PyErr α`; `PyErr.valueError` models a raised
  `ValueError` (the spec's `InvalidValue`) and `PyErr.typeError` models an
  uncaught host-level `TypeError`.
* `json.dumps` / `json.loads` are embedded as executable functions
  (`json_dumps`, `json_loads`) below, with the default CPython separators
  `", "` / `": "` and `ensure_ascii` escaping.
-/

/-- Python `float` modelled as an exact fraction.  All constructions in this
development keep `den` positive; `PyFloatWF` records that invariant where a
theorem needs it. -/
structure PyFloat where
  num : Int
  den : Int
  deriving DecidableEq, Repr

/-- The denominator invariant every value arising from the embedded Python
code satisfies. -/
def PyFloatWF (q : PyFloat) : Prop := 0 < q.den

instance (q : PyFloat) : Decidable (PyFloatWF q) := by
  unfold PyFloatWF; infer_instance

/-- The float for an integer. -/
def PyFloat.ofInt (n : Int) : PyFloat := ⟨n, 1⟩

/-- Zero test (`x == 0` on a float with positive denominator). -/
def PyFloat.isZero (q : PyFloat) : Bool := q.num = 0

/-- Negativity test (`x < 0` on a float with positive denominator). -/
def PyFloat.isNeg (q : PyFloat) : Bool := q.num < 0

/-- Absolute value. -/
def PyFloat.abs (q : PyFloat) : PyFloat := if q.num < 0 then ⟨-q.num, q.den⟩ else q

/-- Multiplication by ten (used when emitting decimal digits). -/
def PyFloat.mulTen (q : PyFloat) : PyFloat := ⟨q.num * 10, q.den⟩

/-- Subtraction of an integer. -/
def PyFloat.subInt (q : PyFloat) (k : Int) : PyFloat := ⟨q.num - k * q.den, q.den⟩

/-- Floor (`math.floor`; `Int.fdiv` rounds toward negative infinity). -/
def PyFloat.floor (q : PyFloat) : Int := q.num.fdiv q.den

/-- Truncation toward zero, the behaviour of Python `int(float)`
(`Int.tdiv` rounds toward zero). -/
def PyFloat.trunc (q : PyFloat) : Int := q.num.tdiv q.den

/-- Model of a Python runtime value as relevant to this program. -/
inductive PyVal where
  | str (s : String)
  | int (n : Int)
  | float (q : PyFloat)
  | bool (b : Bool)
  | none
  | list (xs : List PyVal)
  | dict (kvs : List (String × PyVal))

/-- `'0'`..`'9'`/`'a'`..`'f'` for a digit value below 16. -/
def hexDigitChar (n : Nat) : Char :=
  if n < 10 then Char.ofNat (48 + n) else Char.ofNat (87 + n)

/-- Decimal digit character for a value below 10. -/
def digitChar10 (n : Nat) : Char := Char.ofNat (48 + n)

/-- Big-endian 4-hex-digit rendering of a number below 2^16. -/
def hex4 (n : Nat) : List Char :=
  [hexDigitChar (n / 4096 % 16), hexDigitChar (n / 256 % 16),
   hexDigitChar (n / 16 % 16), hexDigitChar (n % 16)]

/-- JSON string escaping of one character, following CPython `json.dumps`
with its default `ensure_ascii=True`: printable ASCII passes through, the
two-character escapes are used for the classic control characters, all other
characters become `\uXXXX` (astral characters become a surrogate pair). -/
def escapeChar (c : Char) : List Char :=
  if c = '"' then ['\\', '"']
  else if c = '\\' then ['\\', '\\']
  else if c = '\n' then ['\\', 'n']
  else if c = '\t' then ['\\', 't']
  else if c = '\r' then ['\\', 'r']
  else if c = Char.ofNat 8 then ['\\', 'b']
  else if c = Char.ofNat 12 then ['\\', 'f']
  else if c.toNat < 32 then '\\' :: 'u' :: hex4 c.toNat
  else if c.toNat < 127 then [c]
  else if c.toNat < 65536 then '\\' :: 'u' :: hex4 c.toNat
  else
    let m := c.toNat - 65536
    ('\\' :: 'u' :: hex4 (55296 + m / 1024)) ++ ('\\' :: 'u' :: hex4 (56320 + m % 1024))

/-- JSON escaping of a whole character list (string body, without quotes). -/
def escapeChars : List Char → List Char
  | [] => []
  | c :: cs => escapeChar c ++ escapeChars cs

/-- Fuel-driven decimal digit emission for naturals (fuel `n + 1` always
suffices, so `natDigits` below is total and exact). -/
def natDigitsGo : Nat → Nat → List Char
  | 0, _ => []
  | f + 1, n => if n < 10 then [digitChar10 n] else natDigitsGo f (n / 10) ++ [digitChar10 (n % 10)]

/-- Decimal digits of a natural number, most significant first. -/
def natDigits (n : Nat) : List Char := natDigitsGo (n + 1) n

/-- Python `str(int)`: base-10 rendering with a leading `-` for negatives. -/
def intToDecimal (n : Int) : String :=
  if n < 0 then "-" ++ String.mk (natDigits n.natAbs) else String.mk (natDigits n.toNat)

/-- Decimal digits of the fractional part `x` (an invariant `0 ≤ x < 1` is
maintained by callers); the fuel caps the expansion, which is exact for every
value a CPython float can take in the scenarios treated here. -/
def fracDigitsGo : Nat → PyFloat → List Char
  | 0, _ => []
  | f + 1, x =>
    if x.isZero then []
    else
      let d := x.mulTen.floor
      digitChar10 d.toNat :: fracDigitsGo f (x.mulTen.subInt d)

/-- Python `str(float)` / `repr(float)` on the fraction model: sign, integer
part, a dot, then the fractional digits (integral values print as `…​.0`).
CPython's switch to exponent form for very large/small magnitudes is outside
the model; no claim exercises it. -/
def pyStrOfFloat (q : PyFloat) : String :=
  let sgn := if q.isNeg then "-" else ""
  let a := q.abs
  let ip := a.floor
  let fr := a.subInt ip
  let frChars := if fr.isZero then ['0'] else fracDigitsGo 60 fr
  sgn ++ String.mk (natDigits ip.toNat) ++ "." ++ String.mk frChars

mutual

/-- CPython `json.dumps` with default arguments, producing a character list:
separators `", "` and `": "`, `ensure_ascii` escaping. -/
def dumpVal : PyVal → List Char
  | .str s => '"' :: escapeChars s.data ++ ['"']
  | .int n => (intToDecimal n).data
  | .float q => (pyStrOfFloat q).data
  | .bool b => if b then ['t', 'r', 'u', 'e'] else ['f', 'a', 'l', 's', 'e']
  | .none => ['n', 'u', 'l', 'l']
  | .list xs => '[' :: dumpElems xs ++ [']']
  | .dict kvs => '{' :: dumpMembers kvs ++ ['}']

/-- Array elements joined by `", "`. -/
def dumpElems : List PyVal → List Char
  | [] => []
  | [x] => dumpVal x
  | x :: y :: xs => dumpVal x ++ ',' :: ' ' :: dumpElems (y :: xs)

/-- Object members `"key": value` joined by `", "`. -/
def dumpMembers : List (String × PyVal) → List Char
  | [] => []
  | [(k, v)] => '"' :: escapeChars k.data ++ '"' :: ':' :: ' ' :: dumpVal v
  | (k, v) :: m :: ms =>
      ('"' :: escapeChars k.data ++ '"' :: ':' :: ' ' :: dumpVal v) ++ ',' :: ' ' :: dumpMembers (m :: ms)

end

/-- CPython `json.dumps` as a `String`-level function. -/
def json_dumps (v : PyVal) : String := String.mk (dumpVal v)

example : json_dumps (.list [.int 1, .str "a"]) = "[1, \"a\"]" := by rfl
example : json_dumps (.dict [("k", .bool true)]) = "\x7b\"k\": true\x7d" := by rfl
example : json_dumps (.float ⟨425, 10⟩) = "42.5" := by rfl
example : json_dumps (.float ⟨-425, 10⟩) = "-42.5" := by rfl
example : json_dumps (.float ⟨42, 1⟩) = "42.0" := by rfl
example : json_dumps (.list []) = "[]" := by rfl
example : intToDecimal (-42) = "-42" := by rfl

/-! ## JSON parsing (CPython `json.loads`, strict mode)

Fuel-driven recursive-descent parser.  The fuel `2 * length + 4` used by
`json_loads` dominates the recursion depth because every other step consumes
at least one input character.  CPython's non-standard acceptance of
`NaN`/`Infinity` literals and of lone surrogate escapes is outside the model.
-/

/-- JSON whitespace (space, tab, newline, carriage return). -/
def isJsonWS (c : Char) : Bool := c = ' ' || c = '\t' || c = '\n' || c = '\r'

/-- Drop leading JSON whitespace. -/
def skipWS : List Char → List Char
  | [] => []
  | c :: cs => if isJsonWS c then skipWS cs else c :: cs

/-- Hexadecimal digit value. -/
def hexVal (c : Char) : Option Nat :=
  if 48 ≤ c.toNat ∧ c.toNat ≤ 57 then some (c.toNat - 48)
  else if 97 ≤ c.toNat ∧ c.toNat ≤ 102 then some (c.toNat - 87)
  else if 65 ≤ c.toNat ∧ c.toNat ≤ 70 then some (c.toNat - 55)
  else Option.none

/-- Prepend a character to the body of a string-parse result. -/
def consStr (c : Char) : Option (List Char × List Char) → Option (List Char × List Char)
  | some (body, rest) => some (c :: body, rest)
  | Option.none => Option.none

/-- Decode four hexadecimal digit characters big-endian. -/
def hexQuad4 (h1 h2 h3 h4 : Char) : Option Nat :=
  match hexVal h1, hexVal h2, hexVal h3, hexVal h4 with
  | some a, some b, some c, some d => some (a * 4096 + b * 256 + c * 16 + d)
  | _, _, _, _ => Option.none

mutual

/-- Parse a JSON string body (input begins after the opening quote); returns
the decoded characters and the input after the closing quote.  The fuel
decreases at every step while at least one character is consumed, so twice
the input length always suffices. -/
def parseJStr : Nat → List Char → Option (List Char × List Char)
  | 0, _ => Option.none
  | _ + 1, [] => Option.none
  | f + 1, c :: cs =>
    if c = '"' then some ([], cs)
    else if c = '\\' then parseJEsc f cs
    else if c.toNat < 32 then Option.none
    else consStr c (parseJStr f cs)

/-- Parse one escape sequence (input begins after the backslash). -/
def parseJEsc : Nat → List Char → Option (List Char × List Char)
  | 0, _ => Option.none
  | _ + 1, [] => Option.none
  | f + 1, e :: r =>
    if e = '"' then consStr '"' (parseJStr f r)
    else if e = '\\' then consStr '\\' (parseJStr f r)
    else if e = '/' then consStr '/' (parseJStr f r)
    else if e = 'b' then consStr (Char.ofNat 8) (parseJStr f r)
    else if e = 'f' then consStr (Char.ofNat 12) (parseJStr f r)
    else if e = 'n' then consStr '\n' (parseJStr f r)
    else if e = 'r' then consStr '\r' (parseJStr f r)
    else if e = 't' then consStr '\t' (parseJStr f r)
    else if e = 'u' then
      match r with
      | h1 :: h2 :: h3 :: h4 :: r2 =>
        match hexQuad4 h1 h2 h3 h4 with
        | some n =>
          if 55296 ≤ n ∧ n < 56320 then
            match r2 with
            | '\\' :: 'u' :: g1 :: g2 :: g3 :: g4 :: r3 =>
              match hexQuad4 g1 g2 g3 g4 with
              | some m =>
                if 56320 ≤ m ∧ m < 57344 then
                  consStr (Char.ofNat (65536 + (n - 55296) * 1024 + (m - 56320))) (parseJStr f r3)
                else Option.none
              | Option.none => Option.none
            | _ => Option.none
          else if 56320 ≤ n ∧ n < 57344 then Option.none
          else consStr (Char.ofNat n) (parseJStr f r2)
        | Option.none => Option.none
      | _ => Option.none
    else Option.none

end

/-- Decimal digit test, written on character codes for easy arithmetic
reasoning (equivalent to `Char.isDigit`). -/
def isDigitChar (c : Char) : Bool := 48 ≤ c.toNat ∧ c.toNat ≤ 57

/-- Longest prefix of decimal digits, and the remainder. -/
def spanDigits : List Char → List Char × List Char
  | [] => ([], [])
  | c :: cs =>
    if isDigitChar c then
      let (d, r) := spanDigits cs
      (c :: d, r)
    else ([], c :: cs)

/-- Accumulate decimal digit characters into a natural number. -/
def digitsToNat (acc : Nat) : List Char → Nat
  | [] => acc
  | c :: cs => digitsToNat (acc * 10 + (c.toNat - 48)) cs

/-- Match an expected literal character sequence, returning the remainder. -/
def stripChars : List Char → List Char → Option (List Char)
  | [], l => some l
  | c :: cs, d :: ds => if c = d then stripChars cs ds else Option.none
  | _ :: _, [] => Option.none

/-- The optional leading minus sign of a JSON number. -/
def parseSign (l : List Char) : Bool × List Char :=
  match l with
  | c :: r => if c = '-' then (true, r) else (false, l)
  | [] => (false, [])

/-- The integer part of a JSON number: a single `0`, or a non-zero digit
followed by more digits. -/
def parseIntPart (l : List Char) : Option (List Char × List Char) :=
  match l with
  | c :: r =>
    if isDigitChar c then
      if c = '0' then some (['0'], r)
      else some (c :: (spanDigits r).1, (spanDigits r).2)
    else Option.none
  | [] => Option.none

/-- The optional fraction part: a dot followed by at least one digit, or
nothing. -/
def parseFracPart (l : List Char) : Option (List Char × List Char) :=
  match l with
  | '.' :: r2 =>
    match spanDigits r2 with
    | ([], _) => Option.none
    | (ds, r3) => some (ds, r3)
  | other => some ([], other)

/-- The optional sign inside an exponent. -/
def parseExpSign (l : List Char) : Int × List Char :=
  match l with
  | s :: r7 => if s = '-' then (-1, r7) else if s = '+' then (1, r7) else (1, l)
  | [] => (1, [])

/-- The optional exponent part: `e`/`E`, an optional sign, at least one
digit; or nothing. -/
def parseExpPart (l : List Char) : Option (Option Int × List Char) :=
  match l with
  | e :: r5 =>
    if e = 'e' ∨ e = 'E' then
      let sr := parseExpSign r5
      match spanDigits sr.2 with
      | ([], _) => Option.none
      | (eds, r8) => some (some (sr.1 * (digitsToNat 0 eds : Nat)), r8)
    else some (Option.none, l)
  | [] => some (Option.none, [])

/-- Parse a JSON number (strict JSON grammar; integers without fraction or
exponent become Python `int`, everything else a Python `float`). -/
def parseJNum (l : List Char) : Option (PyVal × List Char) :=
  let sr := parseSign l
  match parseIntPart sr.2 with
  | Option.none => Option.none
  | some (ids, r1) =>
    match parseFracPart r1 with
    | Option.none => Option.none
    | some (fds, r4) =>
      match parseExpPart r4 with
      | Option.none => Option.none
      | some (expv, rest) =>
        if fds = [] ∧ expv = Option.none then
          let ip : Int := (digitsToNat 0 ids : Nat)
          some (.int (if sr.1 then -ip else ip), rest)
        else
          let mantNum : Int := (digitsToNat 0 (ids ++ fds) : Nat)
          let mantDen : Int := (10 : Int) ^ fds.length
          let e : Int := expv.getD 0
          let q : PyFloat :=
            if 0 ≤ e then ⟨mantNum * 10 ^ e.toNat, mantDen⟩
            else ⟨mantNum, mantDen * 10 ^ (-e).toNat⟩
          some (.float (if sr.1 then ⟨-q.num, q.den⟩ else q), rest)

/-- Python `dict` insertion: an existing key keeps its position and gets the
new value, a new key is appended. -/
def dictInsert (kvs : List (String × PyVal)) (k : String) (v : PyVal) : List (String × PyVal) :=
  match kvs with
  | [] => [(k, v)]
  | (k', v') :: rest => if k' = k then (k', v) :: rest else (k', v') :: dictInsert rest k v

mutual

/-- Parse one JSON value (input begins at a non-whitespace character). -/
def parseJVal : Nat → List Char → Option (PyVal × List Char)
  | 0, _ => Option.none
  | f + 1, l =>
    match l with
    | [] => Option.none
    | c :: r =>
      if c = '{' then parseJMembersStart f (skipWS r)
      else if c = '[' then parseJElemsStart f (skipWS r)
      else if c = '"' then
        match parseJStr f r with
        | some (body, rest) => some (.str (String.mk body), rest)
        | Option.none => Option.none
      else if c = 't' then
        match stripChars ['r', 'u', 'e'] r with
        | some rest => some (.bool true, rest)
        | Option.none => Option.none
      else if c = 'f' then
        match stripChars ['a', 'l', 's', 'e'] r with
        | some rest => some (.bool false, rest)
        | Option.none => Option.none
      else if c = 'n' then
        match stripChars ['u', 'l', 'l'] r with
        | some rest => some (.none, rest)
        | Option.none => Option.none
      else if c = '-' ∨ isDigitChar c then parseJNum l
      else Option.none

/-- Parse array contents (input begins after `[`, whitespace skipped). -/
def parseJElemsStart : Nat → List Char → Option (PyVal × List Char)
  | 0, _ => Option.none
  | f + 1, l =>
    match l with
    | ']' :: r => some (.list [], r)
    | _ =>
      match parseJVal f l with
      | some (v, r) => parseJElemsRest f [v] (skipWS r)
      | Option.none => Option.none

/-- Parse `, value`* `]` after at least one element. -/
def parseJElemsRest : Nat → List PyVal → List Char → Option (PyVal × List Char)
  | 0, _, _ => Option.none
  | f + 1, acc, l =>
    match l with
    | ',' :: r =>
      match parseJVal f (skipWS r) with
      | some (v, r2) => parseJElemsRest f (acc ++ [v]) (skipWS r2)
      | Option.none => Option.none
    | ']' :: r => some (.list acc, r)
    | _ => Option.none

/-- Parse object contents (input begins after `{`, whitespace skipped). -/
def parseJMembersStart : Nat → List Char → Option (PyVal × List Char)
  | 0, _ => Option.none
  | f + 1, l =>
    match l with
    | '}' :: r => some (.dict [], r)
    | '"' :: r =>
      match parseJStr f r with
      | some (k, r2) => parseJMemberVal f [] (String.mk k) (skipWS r2)
      | Option.none => Option.none
    | _ => Option.none

/-- Parse `: value` after an object key. -/
def parseJMemberVal : Nat → List (String × PyVal) → String → List Char → Option (PyVal × List Char)
  | 0, _, _, _ => Option.none
  | f + 1, acc, k, l =>
    match l with
    | ':' :: r =>
      match parseJVal f (skipWS r) with
      | some (v, r2) => parseJMembersRest f (dictInsert acc k v) (skipWS r2)
      | Option.none => Option.none
    | _ => Option.none

/-- Parse `, "key": value`* `}` after at least one member. -/
def parseJMembersRest : Nat → List (String × PyVal) → List Char → Option (PyVal × List Char)
  | 0, _, _ => Option.none
  | f + 1, acc, l =>
    match l with
    | ',' :: r =>
      match skipWS r with
      | '"' :: r2 =>
        match parseJStr f r2 with
        | some (k, r3) => parseJMemberVal f acc (String.mk k) (skipWS r3)
        | Option.none => Option.none
      | _ => Option.none
    | '}' :: r => some (.dict acc, r)
    | _ => Option.none

end

/-- `json.loads` on a character list: one value, surrounding whitespace
allowed, trailing data rejected; `Option.none` models `JSONDecodeError`. -/
def json_loads_chars (l : List Char) : Option PyVal :=
  match parseJVal (2 * l.length + 4) (skipWS l) with
  | some (v, rest) => if skipWS rest = [] then some v else Option.none
  | Option.none => Option.none

/-- CPython `json.loads`. -/
def json_loads (s : String) : Option PyVal := json_loads_chars s.data

example : json_loads "[\"a\", \"b\"]" = some (.list [.str "a", .str "b"]) := by rfl
example : json_loads "\x7b\"k\": 1\x7d" = some (.dict [("k", .int 1)]) := by rfl
example : json_loads "  true " = some (.bool true) := by rfl
example : json_loads "-12.5e1" = some (.float ⟨-1250, 10⟩) := by rfl
example : json_loads "not json" = Option.none := by rfl
example : json_loads "\"ab\"" = some (.str "ab") := by rfl
example : json_loads "[1, [2, \"x\"], null]" = some (.list [.int 1, .list [.int 2, .str "x"], .none]) := by rfl
example : json_loads "\"a\\u00e9b\"" = some (.str "aéb") := by rfl
example : json_loads "[1,]" = Option.none := by rfl

/-! ## Python runtime helpers -/

/-- Python error outcomes relevant here: a raised `ValueError` (the spec's
`InvalidValue`) and an uncaught host-level `TypeError`. -/
inductive PyErr where
  | valueError (msg : String)
  | typeError
  deriving DecidableEq, Repr

/-- Python repr escaping of one string character (approximation: the
backslash, the quote and the common control characters; exotic characters
pass through unchanged — no claim observes them). -/
def reprEscapeChar (c : Char) : List Char :=
  if c = '\\' then ['\\', '\\']
  else if c = '\'' then ['\\', '\'']
  else if c = '\n' then ['\\', 'n']
  else if c = '\r' then ['\\', 'r']
  else if c = '\t' then ['\\', 't']
  else [c]

/-- Python repr escaping of a string body. -/
def reprEscape : List Char → List Char
  | [] => []
  | c :: cs => reprEscapeChar c ++ reprEscape cs

mutual

/-- Python `repr` of a value (strings get single quotes; for the other types
below `repr` and `str` agree). -/
def pyReprVal : PyVal → List Char
  | .str s => '\'' :: reprEscape s.data ++ ['\'']
  | .int n => (intToDecimal n).data
  | .float q => (pyStrOfFloat q).data
  | .bool b => if b then ['T', 'r', 'u', 'e'] else ['F', 'a', 'l', 's', 'e']
  | .none => ['N', 'o', 'n', 'e']
  | .list xs => '[' :: pyReprElems xs ++ [']']
  | .dict kvs => '{' :: pyReprMembers kvs ++ ['}']

/-- List elements of a `repr`, joined by `", "`. -/
def pyReprElems : List PyVal → List Char
  | [] => []
  | [x] => pyReprVal x
  | x :: y :: xs => pyReprVal x ++ ',' :: ' ' :: pyReprElems (y :: xs)

/-- Dict members of a `repr`, joined by `", "` with `": "` between key and
value (keys are rendered like string repr). -/
def pyReprMembers : List (String × PyVal) → List Char
  | [] => []
  | [(k, v)] => '\'' :: reprEscape k.data ++ '\'' :: ':' :: ' ' :: pyReprVal v
  | (k, v) :: m :: ms =>
      ('\'' :: reprEscape k.data ++ '\'' :: ':' :: ' ' :: pyReprVal v) ++ ',' :: ' ' :: pyReprMembers (m :: ms)

end

/-- Python `str(value)`: the string itself for strings, `repr` otherwise
(they agree on every non-string type appearing here). -/
def pyStr : PyVal → String
  | .str s => s
  | v => String.mk (pyReprVal v)

/-- Python truthiness (`bool(value)`). -/
def pyBool : PyVal → Bool
  | .str s => !(s == "")
  | .int n => !(n == 0)
  | .float q => !(q.num == 0)
  | .bool b => b
  | .none => false
  | .list xs => !xs.isEmpty
  | .dict kvs => !kvs.isEmpty

/-- ASCII lower-casing of one character (Python `str.lower`, restricted to
ASCII — all strings the program compares this way are ASCII). -/
def lowerChar (c : Char) : Char :=
  if 65 ≤ c.toNat ∧ c.toNat ≤ 90 then Char.ofNat (c.toNat + 32) else c

/-- Python `str.lower` (ASCII model). -/
def pyLower (s : String) : String := String.mk (s.data.map lowerChar)

/-- Python `str.startswith`. -/
def pyStartsWith (s pre : String) : Bool := pre.data.isPrefixOf s.data

/-- One fuelled pass of Python `str.replace`: scan left to right, replacing
non-overlapping occurrences of `pat`.  Fuel `length + 1` always suffices
because every step consumes at least one character. -/
def replaceGo (pat rep : List Char) : Nat → List Char → List Char
  | 0, l => l
  | _ + 1, [] => []
  | f + 1, c :: cs =>
    if pat.isPrefixOf (c :: cs) then rep ++ replaceGo pat rep f (List.drop pat.length (c :: cs))
    else c :: replaceGo pat rep f cs

/-- Python `str.replace` (the empty-pattern corner of CPython, which the
program never uses, is modelled as the identity). -/
def pyReplace (s pat rep : String) : String :=
  if pat.data = [] then s
  else String.mk (replaceGo pat.data rep.data (s.data.length + 1) s.data)

/-- Python whitespace accepted around numeric literals by `float()`/`int()`. -/
def isPySpace (c : Char) : Bool :=
  c = ' ' || c = '\t' || c = '\n' || c = '\r' || c = Char.ofNat 11 || c = Char.ofNat 12

/-- Drop leading Python whitespace. -/
def dropSpaces : List Char → List Char
  | [] => []
  | c :: cs => if isPySpace c then dropSpaces cs else c :: cs

/-- Strip Python whitespace from both ends. -/
def stripSpaces (l : List Char) : List Char :=
  ((dropSpaces ((dropSpaces l).reverse)).reverse)

/-- Python `float(str)` on decimal literals: optional sign, digits with an
optional fraction, optional exponent (`inf`/`nan` words and underscore
separators are outside the model).  `Option.none` models the raised
`ValueError`. -/
def pyFloatOfString (s : String) : Option PyFloat :=
  let l := stripSpaces s.data
  let signAndRest : Int × List Char :=
    match l with
    | c :: r => if c = '-' then (-1, r) else if c = '+' then (1, l.tail) else (1, l)
    | [] => (1, [])
  let sgn := signAndRest.1
  let intRes := spanDigits signAndRest.2
  let ids := intRes.1
  let fracRes : List Char × List Char :=
    match intRes.2 with
    | '.' :: r2 => spanDigits r2
    | other => ([], other)
  let fds := fracRes.1
  if ids = [] ∧ fds = [] then Option.none
  else
    let expRes : Option (Int × List Char) :=
      match fracRes.2 with
      | e :: r5 =>
        if e = 'e' ∨ e = 'E' then
          let signRest : Int × List Char :=
            match r5 with
            | s2 :: r7 => if s2 = '-' then (-1, r7) else if s2 = '+' then (1, r7) else (1, r5)
            | [] => (1, [])
          match spanDigits signRest.2 with
          | ([], _) => Option.none
          | (eds, r8) => some (signRest.1 * (digitsToNat 0 eds : Nat), r8)
        else some (0, fracRes.2)
      | [] => some (0, [])
    match expRes with
    | Option.none => Option.none
    | some (e, rest) =>
      if rest = [] then
        let mantNum : Int := sgn * (digitsToNat 0 (ids ++ fds) : Nat)
        let mantDen : Int := (10 : Int) ^ fds.length
        some (if 0 ≤ e then ⟨mantNum * 10 ^ e.toNat, mantDen⟩ else ⟨mantNum, mantDen * 10 ^ (-e).toNat⟩)
      else Option.none

/-- Python `int(str)`: optional sign and decimal digits only. -/
def pyIntOfString (s : String) : Option Int :=
  let l := stripSpaces s.data
  let signAndRest : Int × List Char :=
    match l with
    | c :: r => if c = '-' then (-1, r) else if c = '+' then (1, l.tail) else (1, l)
    | [] => (1, [])
  match spanDigits signAndRest.2 with
  | ([], _) => Option.none
  | (ds, rest) => if rest = [] then some (signAndRest.1 * (digitsToNat 0 ds : Nat)) else Option.none

/-- Python `int(value)` on the value kinds of this program: exact for ints,
truncation toward zero for floats, `1`/`0` for bools, a strict decimal literal
parse for strings, and an uncaught `TypeError` for everything else. -/
def pyIntCast : PyVal → Except PyErr Int
  | .int n => .ok n
  | .float q => .ok q.trunc
  | .bool b => .ok (if b then 1 else 0)
  | .str s =>
    match pyIntOfString s with
    | some n => .ok n
    | Option.none => .error (.valueError ("invalid literal for int with base 10: " ++ s))
  | _ => .error .typeError

/-- Python `float(value)` on the value kinds of this program. -/
def pyFloatCast : PyVal → Except PyErr PyFloat
  | .int n => .ok ⟨n, 1⟩
  | .float q => .ok q
  | .bool b => .ok ⟨if b then 1 else 0, 1⟩
  | .str s =>
    match pyFloatOfString s with
    | some q => .ok q
    | Option.none => .error (.valueError ("could not convert string to float: " ++ s))
  | _ => .error .typeError

/-- Python iteration (`for item in value`): lists yield their elements,
strings their characters, dicts their keys; numbers, booleans and `None`
raise an uncaught `TypeError`. -/
def pyIter : PyVal → Except PyErr (List PyVal)
  | .list xs => .ok xs
  | .str s => .ok (s.data.map fun c => .str (String.mk [c]))
  | .dict kvs => .ok (kvs.map fun kv => .str kv.1)
  | _ => .error .typeError

example : pyLower "FaLsE" = "false" := by rfl
example : pyFloatOfString "123.0" = some ⟨1230, 10⟩ := by rfl
example : pyFloatOfString "42" = some ⟨42, 1⟩ := by rfl
example : pyFloatOfString "abc" = Option.none := by rfl
example : pyFloatOfString "-1e-2" = some ⟨-1, 100⟩ := by rfl
example : pyReplace "list.single_line_text_field" "list." "" = "single_line_text_field" := by rfl
example : pyStr (.bool true) = "True" := by rfl
example : PyFloat.trunc ⟨1230, 10⟩ = 123 := by rfl

/-! ## `MetafieldTypeTransformer` (src/metafield_writer.py, lines 57–158) -/

/-- The coercion at the top of `_transform_list_value` (lines 135–146):
a non-list value that is a string is tried as JSON (the parse result is used
whatever it is; on failure the whole string becomes a one-element list), and
any other non-list value is wrapped in a one-element list. -/
def coerceToSeq (value : PyVal) : PyVal :=
  match value with
  | .list _ => value
  | .str s =>
    match json_loads s with
    | some parsed => parsed
    | Option.none => .list [value]
  | _ => .list [value]

/-- The `for item in value` loop of `_transform_list_value` (lines 152–155):
transform every item, stopping at the first raised error. -/
def mapTransform (trans : PyVal → Except PyErr String) : List PyVal → Except PyErr (List String)
  | [] => .ok []
  | x :: xs =>
    match trans x with
    | .ok s =>
      match mapTransform trans xs with
      | .ok ss => .ok (s :: ss)
      | .error e => .error e
    | .error e => .error e

/-- Fuelled body of `MetafieldTypeTransformer.transform_value` (lines 57–130)
with `_transform_list_value` (lines 132–158) inlined in the `list.` branch.
The recursion (a list type recursing on its base type) strictly shrinks the
type string, so fuel `metafield_type.length + 1` — used by `transform_value`
below — always suffices; the fuel-exhaustion branch is unreachable from
`transform_value` (theorem `transformGo_fuel`). -/
def transformGo : Nat → PyVal → String → Except PyErr String
  | 0, _, _ => .error .typeError
  | f + 1, value, metafield_type =>
    if pyStartsWith metafield_type "list." then
      let base_type := pyReplace metafield_type "list." ""
      match pyIter (coerceToSeq value) with
      | .error e => .error e
      | .ok items =>
        match mapTransform (fun it => transformGo f it base_type) items with
        | .ok ss => .ok (json_dumps (.list (ss.map PyVal.str)))
        | .error e => .error e
    else if metafield_type = "json" then
      match value with
      | .dict _ => .ok (json_dumps value)
      | .list _ => .ok (json_dumps value)
      | .str s =>
        match json_loads s with
        | some parsed => .ok (json_dumps parsed)
        | Option.none => .error (.valueError ("Invalid JSON string: " ++ s))
      | _ => .ok (json_dumps value)
    else if metafield_type = "number_integer" then
      match value with
      | .str s =>
        match pyFloatOfString s with
        | some q => .ok (intToDecimal q.trunc)
        | Option.none => .error (.valueError ("Cannot convert '" ++ s ++ "' to integer"))
      | _ =>
        match pyIntCast value with
        | .ok n => .ok (intToDecimal n)
        | .error e => .error e
    else if metafield_type = "number_decimal" then
      match value with
      | .str s =>
        match pyFloatOfString s with
        | some q => .ok (pyStrOfFloat q)
        | Option.none => .error (.valueError ("Cannot convert '" ++ s ++ "' to decimal"))
      | _ =>
        match pyFloatCast value with
        | .ok q => .ok (pyStrOfFloat q)
        | .error e => .error e
    else if metafield_type = "boolean" then
      match value with
      | .bool _ => .ok (pyLower (pyStr value))
      | .str _ =>
        .ok (if pyLower (pyStr value) = "true" ∨ pyLower (pyStr value) = "false" then pyLower (pyStr value)
             else pyStr (.bool (pyBool value)))
      | _ => .ok (pyLower (pyStr (.bool (pyBool value))))
    else if metafield_type = "dimension" ∨ metafield_type = "volume" ∨ metafield_type = "weight" then
      match value with
      | .dict _ => .ok (json_dumps value)
      | .str s =>
        match json_loads s with
        | some parsed => .ok (json_dumps parsed)
        | Option.none => .error (.valueError ("Invalid JSON for " ++ metafield_type ++ ": " ++ s))
      | _ => .error (.valueError (metafield_type ++ " must be a dict or JSON string"))
    else .ok (pyStr value)

/-- `MetafieldTypeTransformer.transform_value` (lines 57–130): dispatch on
the metafield type name, returning the canonical string encoding or a raised
error. -/
def transform_value (value : PyVal) (metafield_type : String) : Except PyErr String :=
  transformGo (metafield_type.length + 1) value metafield_type

/-- `MetafieldTypeTransformer._transform_list_value` (lines 132–158): coerce
to a sequence, transform each item against the base type, serialize the
resulting strings as a JSON array. -/
def transform_list_value (value : PyVal) (list_type : String) : Except PyErr String :=
  let base_type := pyReplace list_type "list." ""
  match pyIter (coerceToSeq value) with
  | .error e => .error e
  | .ok items =>
    match mapTransform (fun it => transform_value it base_type) items with
    | .ok ss => .ok (json_dumps (.list (ss.map PyVal.str)))
    | .error e => .error e

example : transform_value (.str "Hello") "single_line_text_field" = .ok "Hello" := by rfl
example : transform_value (.int 123) "single_line_text_field" = .ok "123" := by rfl
example : transform_value (.str "42") "number_integer" = .ok "42" := by rfl
example : transform_value (.float ⟨42, 1⟩) "number_integer" = .ok "42" := by rfl
example : transform_value (.str "123.0") "number_integer" = .ok "123" := by rfl
example : transform_value (.str "abc") "number_integer"
    = .error (.valueError "Cannot convert 'abc' to integer") := by rfl
example : transform_value (.bool true) "boolean" = .ok "true" := by rfl
example : transform_value (.bool false) "boolean" = .ok "false" := by rfl
example : transform_value (.str "FALSE") "boolean" = .ok "false" := by rfl
example : transform_value (.str "yes") "boolean" = .ok "True" := by rfl
example : transform_value (.str "True") "boolean" = .ok "true" := by rfl
example : transform_value (.float ⟨425, 10⟩) "number_decimal" = .ok "42.5" := by rfl
example : transform_value (.dict [("key", .str "value")]) "json" = .ok "\x7b\"key\": \"value\"\x7d" := by rfl
example : transform_value (.str "\x7b\"key\": \"value\"\x7d") "json" = .ok "\x7b\"key\": \"value\"\x7d" := by rfl
example : transform_value (.str "not json") "json"
    = .error (.valueError "Invalid JSON string: not json") := by rfl
example : transform_value (.list [.str "tag1", .str "tag2"]) "list.single_line_text_field"
    = .ok "[\"tag1\", \"tag2\"]" := by rfl
example : transform_value (.list [.int 1, .int 2, .int 3]) "list.number_integer"
    = .ok "[\"1\", \"2\", \"3\"]" := by rfl
example : transform_value (.str "single") "list.single_line_text_field"
    = .ok "[\"single\"]" := by rfl
example : transform_value (.list []) "list.number_integer" = .ok "[]" := by rfl
example : transform_value (.str "\"ab\"") "list.single_line_text_field"
    = .ok "[\"a\", \"b\"]" := by rfl
example : transform_value (.str "1") "list.number_integer" = .error .typeError := by rfl
example : transform_value (.bool true) "number_integer" = .ok "1" := by rfl
example : transform_value (.bool false) "number_integer" = .ok "0" := by rfl
example : transform_value .none "number_integer" = .error .typeError := by rfl
example : transform_value (.str "7.9") "number_integer" = .ok "7" := by rfl
example : transform_value (.str "-7.9") "number_integer" = .ok "-7" := by rfl

/-! ## `ShopifyClient` lookups (src/shopify_client.py)

The GraphQL transport is abstracted as oracles: each lookup is given the
outcome of its `graphql_request` call (`Except TransportErr data`), and the
final mutation is an oracle from the submitted variables to a response.
Query documents are opaque strings in the source and are not modelled.
-/

/-- A transport/protocol failure raised out of `graphql_request` (HTTP error,
GraphQL top-level errors, malformed response…). -/
structure TransportErr where
  msg : String
  deriving DecidableEq, Repr

/-- One `metafieldDefinitions` edge node as extracted by
`get_product_metafield_definition` (fields `id`, `namespace`, `key`,
`type.name`, `name`). -/
structure DefinitionNode where
  id : String
  nspace : String
  key : String
  typeName : String
  name : Option String
  deriving DecidableEq, Repr

/-- The definition dict built by `get_product_metafield_definition`. -/
structure MetafieldDefinition where
  id : String
  nspace : String
  key : String
  type : String
  name : Option String
  deriving DecidableEq, Repr

/-- An existing product metafield as returned by `get_product_metafield`. -/
structure Metafield where
  id : String
  nspace : String
  key : String
  type : String
  value : String
  deriving DecidableEq, Repr

/-- `ShopifyClient.get_product_metafield_definition` (lines 70–130): on any
exception from the transport the `except` clause logs a warning and returns
`None`; otherwise the first edge node, if any, is repackaged. -/
def get_product_metafield_definition
    (resp : Except TransportErr (List DefinitionNode)) : Option MetafieldDefinition :=
  match resp with
  | .error _ => Option.none
  | .ok edges =>
    match edges with
    | [] => Option.none
    | node :: _ =>
      some { id := node.id, nspace := node.nspace, key := node.key,
             type := node.typeName, name := node.name }

/-- `ShopifyClient.get_product_metafield` (lines 132–178): on any exception
the `except` clause logs a warning and returns `None`; otherwise the
metafield if both `product` and `product.metafield` are non-null. -/
def get_product_metafield
    (resp : Except TransportErr (Option (Option Metafield))) : Option Metafield :=
  match resp with
  | .error _ => Option.none
  | .ok Option.none => Option.none
  | .ok (some Option.none) => Option.none
  | .ok (some (some mf)) => some mf

/-! ## `SafeMetafieldWriter` (src/metafield_writer.py, lines 161–296) -/

/-- The writer's in-memory definition cache, keyed by `"namespace:key"`
(insertion only ever happens on a missing key, so an association list with
first-match lookup models the Python dict exactly). -/
abbrev DefCache := List (String × MetafieldDefinition)

/-- The user-errors entries of a mutation response. -/
structure UserError where
  field : String
  message : String
  deriving DecidableEq, Repr

/-- The `product` payload of a mutation response (opaque to the logic). -/
structure ProductData where
  id : String
  metafields : List Metafield
  deriving DecidableEq, Repr

/-- The `productUpdate` payload of a mutation response. -/
structure ProductUpdatePayload where
  product : Option ProductData
  userErrors : List UserError
  deriving DecidableEq, Repr

/-- A transport-level mutation response: `data.productUpdate`, absent keys
defaulting as in `result.get("productUpdate", {})`. -/
structure MutationResponse where
  productUpdate : Option ProductUpdatePayload
  deriving DecidableEq, Repr

/-- One metafield entry of the mutation variables payload. -/
structure MutationField where
  nspace : String
  key : String
  type : String
  value : String
  deriving DecidableEq, Repr

/-- The mutation variables submitted to the transport. -/
structure MutationInput where
  product_id : String
  metafields : List MutationField
  deriving DecidableEq, Repr

/-- The collaborators of the writers, as outcome oracles per argument
tuple. -/
structure ShopifyClient where
  defnLookup : String → String → Except TransportErr (List DefinitionNode)
  mfLookup : String → String → String → Except TransportErr (Option (Option Metafield))
  mutate : MutationInput → Except TransportErr MutationResponse

/-- Structured failure outcomes of the write paths: a raised `ValueError`
(type undeterminable or transform failure), an uncaught `TypeError` escaping
the transformer, the `Exception` raised on a non-empty `userErrors` list, and
a wrapped transport failure (the human-readable context strings the source
interpolates are collapsed into the constructors). -/
inductive WriteErr where
  | valueError (msg : String)
  | typeError
  | userErrors (errors : List UserError)
  | transport (e : TransportErr)
  deriving DecidableEq, Repr

/-- `SafeMetafieldWriter._get_cached_definition` (lines 175–184): fetch only
on a cache miss, store only a non-`None` fetch result, answer from the cache.
`fetchResult` is the outcome `get_product_metafield_definition` would produce
if consulted. -/
def _get_cached_definition (cache : DefCache) (fetchResult : Option MetafieldDefinition)
    (nspace key : String) : Option MetafieldDefinition × DefCache :=
  let cache_key := nspace ++ ":" ++ key
  match List.lookup cache_key cache with
  | some d => (some d, cache)
  | Option.none =>
    match fetchResult with
    | some d => (some d, cache ++ [(cache_key, d)])
    | Option.none => (Option.none, cache)

/-- Python falsiness of an optional string (`not x` for `None` or `""`). -/
def optFalsy : Option String → Bool
  | Option.none => true
  | some s => s == ""

/-- The type-determination slice of `write_product_metafield` (lines
212–233): `determined_type` starts as the explicit `metafield_type`; when
`force_type` is false and the definition lookup misses, an existing
metafield's type takes over; when every source is falsy a `ValueError` is
raised.  Note the source never reads `definition["type"]` — a found
definition leaves `determined_type` as the explicit argument. -/
def resolve_type (metafield_type : Option String) (force_type : Bool)
    (definition : Option MetafieldDefinition) (existing : Option Metafield) :
    Except WriteErr String :=
  let determined :=
    if !force_type then
      match definition with
      | some _ => metafield_type
      | Option.none =>
        match existing with
        | some mf => some mf.type
        | Option.none => metafield_type
    else metafield_type
  if optFalsy determined then
    if optFalsy metafield_type then .error (.valueError "Cannot determine metafield type")
    else .ok (metafield_type.getD "")
  else .ok (determined.getD "")

/-- `SafeMetafieldWriter.write_product_metafield` (lines 186–296): resolve
the type (lines 212–233), transform the value (lines 235–242, re-raising a
`ValueError` with context and letting a `TypeError` escape), submit the
mutation and fail on transport errors or a non-empty `userErrors` list
(lines 244–296).  Returns the `productUpdate` payload and the updated
definition cache. -/
def write_product_metafield (client : ShopifyClient) (cache : DefCache)
    (product_id nspace key : String) (value : PyVal)
    (metafield_type : Option String) (force_type : Bool) :
    Except WriteErr ProductUpdatePayload × DefCache :=
  let defnFetch :=
    if !force_type then
      (_get_cached_definition cache (get_product_metafield_definition (client.defnLookup nspace key))
        nspace key)
    else (Option.none, cache)
  let definition := defnFetch.1
  let cache1 := defnFetch.2
  let existing :=
    if !force_type ∧ definition = Option.none then
      get_product_metafield (client.mfLookup product_id nspace key)
    else Option.none
  match resolve_type metafield_type force_type definition existing with
  | .error e => (.error e, cache1)
  | .ok determined_type =>
    match transform_value value determined_type with
    | .error (.valueError m) =>
      (.error (.valueError ("Value transformation failed: " ++ m)), cache1)
    | .error .typeError => (.error .typeError, cache1)
    | .ok transformed_value =>
      match client.mutate { product_id := product_id,
                            metafields := [{ nspace := nspace, key := key,
                                             type := determined_type,
                                             value := transformed_value }] } with
      | .error e => (.error (.transport e), cache1)
      | .ok resp =>
        let update_result := resp.productUpdate.getD { product := Option.none, userErrors := [] }
        if update_result.userErrors = [] then (.ok update_result, cache1)
        else (.error (.userErrors update_result.userErrors), cache1)

/-! ## `BatchMetafieldWriter` (src/batch_writer.py) -/

/-- One entry of the `metafields` argument of the batch writer; `get` on a
missing dict key yields `None`, modelled by `Option` (and Python falsiness
of `""` is checked explicitly below). -/
structure BatchField where
  nspace : Option String
  key : Option String
  value : PyVal
  type : Option String

/-- The per-field loop of `write_product_metafields_batch` (lines 44–74):
skip entries with falsy namespace or key, auto-detect a missing type from the
definition cache or the existing metafield, raise on an undeterminable type,
transform, and collect the processed entries (the shared definition cache
threads through). -/
def processBatchFields (client : ShopifyClient) (product_id : String) (auto_detect_types : Bool) :
    DefCache → List BatchField → Except WriteErr (List MutationField × DefCache)
  | cache, [] => .ok ([], cache)
  | cache, f :: fs =>
    if optFalsy f.nspace ∨ optFalsy f.key then processBatchFields client product_id auto_detect_types cache fs
    else
      let nspace := (f.nspace).getD ""
      let key := (f.key).getD ""
      let detected :=
        if auto_detect_types ∧ optFalsy f.type then
          let cachedFetch :=
            _get_cached_definition cache
              (get_product_metafield_definition (client.defnLookup nspace key)) nspace key
          match cachedFetch.1 with
          | some d => (some d.type, cachedFetch.2)
          | Option.none =>
            match get_product_metafield (client.mfLookup product_id nspace key) with
            | some mf => (some mf.type, cachedFetch.2)
            | Option.none => (f.type, cachedFetch.2)
        else (f.type, cache)
      let metafield_type := detected.1
      let cache1 := detected.2
      if optFalsy metafield_type then .error (.valueError ("Cannot determine type for " ++ nspace ++ "." ++ key))
      else
        let t := metafield_type.getD ""
        match transform_value f.value t with
        | .error (.valueError m) => .error (.valueError m)
        | .error .typeError => .error .typeError
        | .ok transformed =>
          match processBatchFields client product_id auto_detect_types cache1 fs with
          | .ok (rest, cache2) =>
            .ok ({ nspace := nspace, key := key, type := t, value := transformed } :: rest, cache2)
          | .error e => .error e

/-- `BatchMetafieldWriter.write_product_metafields_batch` (lines 24–122):
process every field, submit one mutation for all of them, and fail the whole
call on a transport error or on a non-empty `userErrors` list — there is no
per-field success reporting. -/
def write_product_metafields_batch (client : ShopifyClient) (cache : DefCache)
    (product_id : String) (metafields : List BatchField) (auto_detect_types : Bool) :
    Except WriteErr ProductUpdatePayload × DefCache :=
  match processBatchFields client product_id auto_detect_types cache metafields with
  | .error e => (.error e, cache)
  | .ok (processed, cache1) =>
    match client.mutate { product_id := product_id, metafields := processed } with
    | .error e => (.error (.transport e), cache1)
    | .ok resp =>
      let update_result := resp.productUpdate.getD { product := Option.none, userErrors := [] }
      if update_result.userErrors = [] then (.ok update_result, cache1)
      else (.error (.userErrors update_result.userErrors), cache1)

/-! ## Auxiliary predicates for the JSON round-trip development -/

/-- A character list is numerically safe to follow a rendered number: its
head cannot extend the number (it is no digit, dot or exponent letter).
Every context in which `json_dumps` emits a number — before `,`, `]`, `}` or
the end of the output — satisfies this. -/
def numSafe : List Char → Bool
  | [] => true
  | c :: _ => !isDigitChar c && !(c = '.') && !(c = 'e') && !(c = 'E')

/-- What remains of a dumped array after its first element: nothing, or a
`", "` separator followed by the remaining elements. -/
def sepElems : List PyVal → List Char
  | [] => []
  | y :: ys => ',' :: ' ' :: dumpElems (y :: ys)

/-- What remains of a dumped object after its first member. -/
def sepMembers : List (String × PyVal) → List Char
  | [] => []
  | m :: ms => ',' :: ' ' :: dumpMembers (m :: ms)

mutual

/-- Well-formedness of a modelled Python value: every float inside carries a
positive denominator (true of every value the embedded code constructs). -/
def pyWFb : PyVal → Bool
  | .str _ => true
  | .int _ => true
  | .float q => 0 < q.den
  | .bool _ => true
  | .none => true
  | .list xs => pyWFbList xs
  | .dict kvs => pyWFbMembers kvs

/-- Well-formedness of each element of a list. -/
def pyWFbList : List PyVal → Bool
  | [] => true
  | x :: xs => pyWFb x && pyWFbList xs

/-- Well-formedness of each value of a dict. -/
def pyWFbMembers : List (String × PyVal) → Bool
  | [] => true
  | (_, v) :: ms => pyWFb v && pyWFbMembers ms

end

/-! # Theorems

Helper lemmas first, then one theorem per claim (with witnesses and
counterexamples where applicable).
-/

/-- The `number_integer` branch on a string input, as a rewriting equation. -/
theorem transform_number_integer_str (s : String) :
    transform_value (.str s) "number_integer"
      = (match pyFloatOfString s with
         | some q => .ok (intToDecimal q.trunc)
         | Option.none => .error (.valueError ("Cannot convert '" ++ s ++ "' to integer"))) := rfl

/-- The `json` branch on a string input, as a rewriting equation. -/
theorem transform_json_str (s : String) :
    transform_value (.str s) "json"
      = (match json_loads s with
         | some parsed => .ok (json_dumps parsed)
         | Option.none => .error (.valueError ("Invalid JSON string: " ++ s))) := rfl

/-- C1: the claim says that with `force_type=False` a cached definition of
type A wins over an explicit override B, and that without an explicit type a
found definition supplies the type.  The code contradicts this (and its own
docstring): the type-determination slice of `write_product_metafield`
fetches the definition but never reads its `type`, so the explicit override
B is resolved with `force_type=False`, and with no explicit type at all a
`ValueError` is raised even though a definition of type A was found.  With
`force_type=True` the override B is resolved, as the claim states. -/
theorem C1_resolve_ignores_found_definition :
    resolve_type (some "number_integer") false
        (some { id := "gid://shopify/MetafieldDefinition/1", nspace := "custom", key := "k",
                type := "single_line_text_field", name := Option.none }) Option.none
      = .ok "number_integer"
    ∧ resolve_type Option.none false
        (some { id := "gid://shopify/MetafieldDefinition/1", nspace := "custom", key := "k",
                type := "single_line_text_field", name := Option.none }) Option.none
      = .error (.valueError "Cannot determine metafield type")
    ∧ resolve_type (some "number_integer") true
        (some { id := "gid://shopify/MetafieldDefinition/1", nspace := "custom", key := "k",
                type := "single_line_text_field", name := Option.none }) Option.none
      = .ok "number_integer"
    ∧ "number_integer" ≠ "single_line_text_field" :=
  ⟨rfl, rfl, rfl, by decide⟩

/-- C2: boolean normalization.  Boolean inputs and the strings
`"true"`/`"false"` (case-insensitively) behave as claimed, but the truthy
fallback for any other string goes through `str(bool(value))` without
`.lower()`, so `"yes"` yields `"True"` — capitalized — where the claim (and
the lowercase convention of every adjacent branch) says `"true"`. -/
theorem C2_boolean_truthy_fallback_is_capitalized :
    transform_value (.bool true) "boolean" = .ok "true"
    ∧ transform_value (.bool false) "boolean" = .ok "false"
    ∧ transform_value (.str "FALSE") "boolean" = .ok "false"
    ∧ transform_value (.str "TRUE") "boolean" = .ok "true"
    ∧ transform_value (.str "yes") "boolean" = .ok "True"
    ∧ "True" ≠ "true" :=
  ⟨rfl, rfl, rfl, rfl, rfl, by decide⟩

/-- C4: re-encoding stability fails on the code.  `transform("yes",
"boolean")` succeeds with output `"True"`, but feeding that output back
through the transformer for the same type yields `"true"`, a different
string — the same missing `.lower()` as in the C2 divergence. -/
theorem C4_reencoding_unstable_on_boolean :
    transform_value (.str "yes") "boolean" = .ok "True"
    ∧ transform_value (.str "True") "boolean" = .ok "true"
    ∧ "True" ≠ "true" :=
  ⟨rfl, rfl, by decide⟩

/-- The `number_integer` branch on an int input. -/
theorem transform_number_integer_int (n : Int) :
    transform_value (.int n) "number_integer" = .ok (intToDecimal n) := rfl

/-- The `number_integer` branch on a float input. -/
theorem transform_number_integer_float (q : PyFloat) :
    transform_value (.float q) "number_integer" = .ok (intToDecimal q.trunc) := rfl

/-- The `number_integer` branch on a boolean input. -/
theorem transform_number_integer_bool (b : Bool) :
    transform_value (.bool b) "number_integer" = .ok (intToDecimal (if b then 1 else 0)) := rfl

/-- The `number_integer` branch on `None`. -/
theorem transform_number_integer_none :
    transform_value .none "number_integer" = .error .typeError := rfl

/-- The `number_integer` branch on a list input. -/
theorem transform_number_integer_list (xs : List PyVal) :
    transform_value (.list xs) "number_integer" = .error .typeError := rfl

/-- The `number_integer` branch on a dict input. -/
theorem transform_number_integer_dict (kvs : List (String × PyVal)) :
    transform_value (.dict kvs) "number_integer" = .error .typeError := rfl

/-- C10: in the `number_integer` branch the `try`/`except` guard only wraps
the string path, so `InvalidValue` (a `ValueError`) is reachable only for
string inputs: booleans succeed (`True` → `"1"`, `False` → `"0"`), and
non-numeric non-string inputs such as `None` or a mapping hit the unguarded
`int(value)` cast and raise a host-level `TypeError` instead. -/
theorem C10_number_integer_invalid_only_for_strings :
    transform_value (.bool true) "number_integer" = .ok "1"
    ∧ transform_value (.bool false) "number_integer" = .ok "0"
    ∧ transform_value .none "number_integer" = .error .typeError
    ∧ (∀ kvs, transform_value (.dict kvs) "number_integer" = .error .typeError)
    ∧ (∀ v : PyVal, (∀ s, v ≠ .str s) →
        ∀ m, transform_value v "number_integer" ≠ .error (.valueError m)) := by
  refine ⟨rfl, rfl, rfl, fun kvs => rfl, fun v hv m => ?_⟩
  cases v with
  | str s => exact absurd rfl (hv s)
  | int n => rw [transform_number_integer_int]; exact fun h => by cases h
  | float q => rw [transform_number_integer_float]; exact fun h => by cases h
  | bool b => rw [transform_number_integer_bool]; exact fun h => by cases h
  | none => rw [transform_number_integer_none]; exact fun h => by cases h
  | list xs => rw [transform_number_integer_list]; exact fun h => by cases h
  | dict kvs => rw [transform_number_integer_dict]; exact fun h => by cases h

/-- Witness for C10 at concrete inputs. -/
theorem C10_number_integer_invalid_only_for_strings_witness :
    transform_value (.dict [("a", .int 1)]) "number_integer" = .error .typeError
    ∧ transform_value (.list [.int 1]) "number_integer" ≠ .error (.valueError "boom") :=
  ⟨C10_number_integer_invalid_only_for_strings.2.2.2.1 [("a", .int 1)],
   C10_number_integer_invalid_only_for_strings.2.2.2.2 (.list [.int 1]) (fun s h => by cases h) "boom"⟩

/-- C7: `number_integer` transformation: concrete round trips
(`"42"` → `"42"`, `42.0` → `"42"`, `"123.0"` → `"123"`), and in general a
string accepted by the float parser is truncated to an integer and rendered
base-10, a string rejected by it raises `InvalidValue`, and numeric inputs
are rendered as base-10 integer strings. -/
theorem C7_number_integer_round_trip :
    transform_value (.str "42") "number_integer" = .ok "42"
    ∧ transform_value (.float ⟨42, 1⟩) "number_integer" = .ok "42"
    ∧ transform_value (.str "123.0") "number_integer" = .ok "123"
    ∧ (∀ s q, pyFloatOfString s = some q →
        transform_value (.str s) "number_integer" = .ok (intToDecimal q.trunc))
    ∧ (∀ s, pyFloatOfString s = Option.none →
        transform_value (.str s) "number_integer"
          = .error (.valueError ("Cannot convert '" ++ s ++ "' to integer")))
    ∧ (∀ n : Int, transform_value (.int n) "number_integer" = .ok (intToDecimal n))
    ∧ (∀ q : PyFloat, transform_value (.float q) "number_integer" = .ok (intToDecimal q.trunc)) := by
  refine ⟨rfl, rfl, rfl, fun s q h => ?_, fun s h => ?_,
    transform_number_integer_int, transform_number_integer_float⟩
  · rw [transform_number_integer_str, h]
  · rw [transform_number_integer_str, h]

/-- Witness for C7 at concrete inputs. -/
theorem C7_number_integer_round_trip_witness :
    transform_value (.str "99.5") "number_integer" = .ok "99"
    ∧ transform_value (.str "abc") "number_integer"
        = .error (.valueError ("Cannot convert '" ++ "abc" ++ "' to integer")) :=
  ⟨C7_number_integer_round_trip.2.2.2.1 "99.5" ⟨995, 10⟩ rfl,
   C7_number_integer_round_trip.2.2.2.2.1 "abc" rfl⟩

/-- `List.lookup` finds a key appended to a list in which it is absent. -/
theorem lookup_append_self {α : Type} [BEq α] [LawfulBEq α] (l : List (α × MetafieldDefinition))
    (k : α) (d : MetafieldDefinition) (h : List.lookup k l = Option.none) :
    List.lookup k (l ++ [(k, d)]) = some d := by
  induction l with
  | nil => simp [List.lookup]
  | cons p rest ih =>
    obtain ⟨a, b⟩ := p
    simp only [List.cons_append, List.lookup] at h ⊢
    by_cases hk : k == a
    · rw [hk] at h; cases h
    · rw [Bool.not_eq_true] at hk
      rw [hk] at h ⊢
      exact ih h

/-- C9: the definition cache is insert-once and never caches absence.  On a
cache hit the stored definition is answered, the cache is unchanged, and the
result does not depend on what the definition collaborator would return (it
is not consulted).  On a miss with an absent fetch result nothing is stored
(so the next call consults the collaborator again); on a miss with a found
definition it is stored under `"namespace:key"` and found by later
lookups. -/
theorem C9_definition_cache_insert_once :
    (∀ (cache : DefCache) (nspace key : String) (d : MetafieldDefinition)
       (fetch1 fetch2 : Option MetafieldDefinition),
       List.lookup (nspace ++ ":" ++ key) cache = some d →
         _get_cached_definition cache fetch1 nspace key = (some d, cache)
         ∧ _get_cached_definition cache fetch1 nspace key
             = _get_cached_definition cache fetch2 nspace key)
    ∧ (∀ (cache : DefCache) (nspace key : String),
       List.lookup (nspace ++ ":" ++ key) cache = Option.none →
         _get_cached_definition cache Option.none nspace key = (Option.none, cache))
    ∧ (∀ (cache : DefCache) (nspace key : String) (d : MetafieldDefinition),
       List.lookup (nspace ++ ":" ++ key) cache = Option.none →
         _get_cached_definition cache (some d) nspace key
           = (some d, cache ++ [(nspace ++ ":" ++ key, d)])
         ∧ List.lookup (nspace ++ ":" ++ key) (cache ++ [(nspace ++ ":" ++ key, d)]) = some d) := by
  refine ⟨fun cache nspace key d f1 f2 h => ?_, fun cache nspace key h => ?_,
    fun cache nspace key d h => ⟨?_, lookup_append_self cache _ d h⟩⟩
  · constructor <;> simp [_get_cached_definition, h]
  · simp [_get_cached_definition, h]
  · simp [_get_cached_definition, h]

/-- Witness for C9 at a concrete cache state. -/
theorem C9_definition_cache_insert_once_witness :
    _get_cached_definition
        [("custom:k", { id := "1", nspace := "custom", key := "k",
                        type := "boolean", name := Option.none })]
        (some { id := "2", nspace := "custom", key := "k",
                type := "json", name := Option.none }) "custom" "k"
      = (some { id := "1", nspace := "custom", key := "k",
                type := "boolean", name := Option.none },
         [("custom:k", { id := "1", nspace := "custom", key := "k",
                         type := "boolean", name := Option.none })])
    ∧ _get_cached_definition [] Option.none "custom" "k" = (Option.none, []) :=
  ⟨(C9_definition_cache_insert_once.1
      [("custom:k", { id := "1", nspace := "custom", key := "k",
                      type := "boolean", name := Option.none })]
      "custom" "k"
      { id := "1", nspace := "custom", key := "k", type := "boolean", name := Option.none }
      (some { id := "2", nspace := "custom", key := "k", type := "json", name := Option.none })
      Option.none rfl).1,
   C9_definition_cache_insert_once.2.1 [] "custom" "k" rfl⟩

/-- C5: whenever the batch mutation response carries a non-empty user-errors
sequence, `write_product_metafields_batch` fails the whole call with the full
error list — even though every submitted field had been transformed
successfully — and returns no per-field success result. -/
theorem C5_batch_user_errors_reject_whole_batch :
    ∀ (client : ShopifyClient) (cache : DefCache) (pid : String)
      (fields : List BatchField) (auto : Bool) (processed : List MutationField)
      (cache1 : DefCache) (pd : Option ProductData) (u : UserError) (us : List UserError),
      processBatchFields client pid auto cache fields = .ok (processed, cache1) →
      client.mutate { product_id := pid, metafields := processed }
        = .ok { productUpdate := some { product := pd, userErrors := u :: us } } →
      write_product_metafields_batch client cache pid fields auto
        = (.error (.userErrors (u :: us)), cache1) := by
  intro client cache pid fields auto processed cache1 pd u us h1 h2
  unfold write_product_metafields_batch
  rw [h1]
  simp [h2]

/-- Witness for C5: two fields that both transform successfully, a transport
stub reporting one user error — the whole batch fails with that error. -/
theorem C5_batch_user_errors_reject_whole_batch_witness :
    write_product_metafields_batch
      { defnLookup := fun _ _ => .error { msg := "down" },
        mfLookup := fun _ _ _ => .error { msg := "down" },
        mutate := fun _ => .ok { productUpdate := some { product := Option.none, userErrors := [{ field := "value", message := "Invalid value for type" }] } } }
      [] "gid://shopify/Product/1"
      [{ nspace := some "custom", key := some "a", value := .str "hello",
         type := some "single_line_text_field" },
       { nspace := some "custom", key := some "b", value := .int 42,
         type := some "number_integer" }]
      true
    = (.error (.userErrors [{ field := "value", message := "Invalid value for type" }]), []) :=
  C5_batch_user_errors_reject_whole_batch
    { defnLookup := fun _ _ => .error { msg := "down" },
      mfLookup := fun _ _ _ => .error { msg := "down" },
      mutate := fun _ => .ok { productUpdate := some { product := Option.none, userErrors := [{ field := "value", message := "Invalid value for type" }] } } }
    [] "gid://shopify/Product/1"
    [{ nspace := some "custom", key := some "a", value := .str "hello",
       type := some "single_line_text_field" },
     { nspace := some "custom", key := some "b", value := .int 42,
       type := some "number_integer" }]
    true
    [{ nspace := "custom", key := "a", type := "single_line_text_field", value := "hello" },
     { nspace := "custom", key := "b", type := "number_integer", value := "42" }]
    [] Option.none { field := "value", message := "Invalid value for type" } []
    rfl rfl

/-- C8: a failing definition-lookup or existing-value-lookup collaborator is
absorbed inside the client accessors (the `except` clauses return `None`), so
`write_product_metafield` behaves exactly as if the value were absent and
resolution falls through — and only the final mutation call propagates a
transport failure, wrapped as an error to the caller. -/
theorem C8_lookup_failures_treated_as_absent :
    (∀ e, get_product_metafield_definition (.error e) = Option.none)
    ∧ (∀ e, get_product_metafield (.error e) = Option.none)
    ∧ (∀ (mutate : MutationInput → Except TransportErr MutationResponse)
         (cache : DefCache) (pid ns key : String) (v : PyVal)
         (mt : Option String) (ft : Bool) (e1 e2 : TransportErr),
         write_product_metafield
           { defnLookup := fun _ _ => .error e1, mfLookup := fun _ _ _ => .error e2,
             mutate := mutate }
           cache pid ns key v mt ft
         = write_product_metafield
           { defnLookup := fun _ _ => .ok [], mfLookup := fun _ _ _ => .ok Option.none,
             mutate := mutate }
           cache pid ns key v mt ft)
    ∧ (∀ (dl : String → String → Except TransportErr (List DefinitionNode))
         (ml : String → String → String → Except TransportErr (Option (Option Metafield)))
         (cache : DefCache) (pid ns key : String) (e : TransportErr),
         write_product_metafield { defnLookup := dl, mfLookup := ml, mutate := fun _ => .error e }
           cache pid ns key (.str "x") (some "single_line_text_field") true
         = (.error (.transport e), cache)) :=
  ⟨fun e => rfl, fun e => rfl, fun mutate cache pid ns key v mt ft e1 e2 => rfl,
   fun dl ml cache pid ns key e => rfl⟩

/-- With an empty replacement and a non-empty pattern, `replaceGo` never
lengthens its input. -/
theorem replaceGo_length_le (pat : List Char) (hpat : pat ≠ []) :
    ∀ (f : Nat) (l : List Char), l.length < f → (replaceGo pat [] f l).length ≤ l.length := by
  intro f
  induction f with
  | zero => intro l hl; cases hl
  | succ g ih =>
    intro l hl
    cases l with
    | nil => simp [replaceGo]
    | cons c cs =>
      rw [replaceGo]
      have hplen : 1 ≤ pat.length := by
        cases pat with
        | nil => exact absurd rfl hpat
        | cons a as => simp
      by_cases hp : pat.isPrefixOf (c :: cs)
      · rw [if_pos hp]
        simp only [List.nil_append]
        have hlt : (List.drop pat.length (c :: cs)).length < g := by
          rw [List.length_drop]
          simp only [List.length_cons] at hl ⊢
          omega
        have hle := ih (List.drop pat.length (c :: cs)) hlt
        rw [List.length_drop] at hle
        simp only [List.length_cons] at hle ⊢
        omega
      · rw [if_neg hp]
        have hcs : cs.length < g := by
          simp only [List.length_cons] at hl
          omega
        have := ih cs hcs
        simp only [List.length_cons]
        omega

/-- Stripping the `"list."` prefix via the source's
`list_type.replace("list.", "")` strictly shrinks the type string. -/
theorem pyReplace_length_lt (t : String) (h : pyStartsWith t "list." = true) :
    (pyReplace t "list." "").length < t.length := by
  have hld : ("list.").data = ['l', 'i', 's', 't', '.'] := rfl
  have hpre : ['l', 'i', 's', 't', '.'] <+: t.data := by
    rw [pyStartsWith, hld] at h
    exact List.isPrefixOf_iff_prefix.mp h
  obtain ⟨rest, hrest⟩ := hpre
  have hdata : t.data = 'l' :: 'i' :: 's' :: 't' :: '.' :: rest := by
    rw [← hrest]; rfl
  have hlen : t.length = 5 + rest.length := by
    show t.data.length = 5 + rest.length
    rw [hdata]
    simp only [List.length_cons]
    omega
  rw [pyReplace]
  rw [if_neg (by decide : ¬("list.").data = [])]
  show (replaceGo ("list.").data [] (t.data.length + 1) t.data).length < t.length
  rw [hld, hdata]
  have hpref : (['l', 'i', 's', 't', '.'] : List Char).isPrefixOf
      ('l' :: 'i' :: 's' :: 't' :: '.' :: rest) = true := by
    apply List.isPrefixOf_iff_prefix.mpr
    exact ⟨rest, rfl⟩
  rw [replaceGo, if_pos hpref]
  simp only [List.nil_append]
  have hdrop : List.drop (['l', 'i', 's', 't', '.'] : List Char).length
      ('l' :: 'i' :: 's' :: 't' :: '.' :: rest) = rest := rfl
  rw [hdrop]
  have hle := replaceGo_length_le (['l', 'i', 's', 't', '.'] : List Char) (by decide)
    ('l' :: 'i' :: 's' :: 't' :: '.' :: rest).length rest
    (by simp only [List.length_cons]; omega)
  rw [hlen]
  omega

/-- `mapTransform` only depends on the pointwise behaviour of the item
transformer. -/
theorem mapTransform_congr (g h : PyVal → Except PyErr String) (hg : ∀ x, g x = h x) :
    ∀ xs, mapTransform g xs = mapTransform h xs := by
  intro xs
  induction xs with
  | nil => rfl
  | cons x rest ih => rw [mapTransform, mapTransform, hg x, ih]

/-- One-step unfolding of `transformGo` at successor fuel. -/
theorem transformGo_succ (f : Nat) (value : PyVal) (t : String) :
    transformGo (f + 1) value t
      = (if pyStartsWith t "list." then
          match pyIter (coerceToSeq value) with
          | .error e => .error e
          | .ok items =>
            match mapTransform (fun it => transformGo f it (pyReplace t "list." "")) items with
            | .ok ss => .ok (json_dumps (.list (ss.map PyVal.str)))
            | .error e => .error e
        else if t = "json" then
          match value with
          | .dict _ => .ok (json_dumps value)
          | .list _ => .ok (json_dumps value)
          | .str s =>
            match json_loads s with
            | some parsed => .ok (json_dumps parsed)
            | Option.none => .error (.valueError ("Invalid JSON string: " ++ s))
          | _ => .ok (json_dumps value)
        else if t = "number_integer" then
          match value with
          | .str s =>
            match pyFloatOfString s with
            | some q => .ok (intToDecimal q.trunc)
            | Option.none => .error (.valueError ("Cannot convert '" ++ s ++ "' to integer"))
          | _ =>
            match pyIntCast value with
            | .ok n => .ok (intToDecimal n)
            | .error e => .error e
        else if t = "number_decimal" then
          match value with
          | .str s =>
            match pyFloatOfString s with
            | some q => .ok (pyStrOfFloat q)
            | Option.none => .error (.valueError ("Cannot convert '" ++ s ++ "' to decimal"))
          | _ =>
            match pyFloatCast value with
            | .ok q => .ok (pyStrOfFloat q)
            | .error e => .error e
        else if t = "boolean" then
          match value with
          | .bool _ => .ok (pyLower (pyStr value))
          | .str _ =>
            .ok (if pyLower (pyStr value) = "true" ∨ pyLower (pyStr value) = "false" then pyLower (pyStr value)
                 else pyStr (.bool (pyBool value)))
          | _ => .ok (pyLower (pyStr (.bool (pyBool value))))
        else if t = "dimension" ∨ t = "volume" ∨ t = "weight" then
          match value with
          | .dict _ => .ok (json_dumps value)
          | .str s =>
            match json_loads s with
            | some parsed => .ok (json_dumps parsed)
            | Option.none => .error (.valueError ("Invalid JSON for " ++ t ++ ": " ++ s))
          | _ => .error (.valueError (t ++ " must be a dict or JSON string"))
        else .ok (pyStr value)) := rfl

/-- Any fuel beyond the length of the type string gives `transformGo` the
behaviour of `transform_value`: the recursion into a list's base type
strictly shrinks the type string, so the fuel is never exhausted. -/
theorem transformGo_fuel : ∀ (f : Nat) (v : PyVal) (t : String), t.length < f →
    transformGo f v t = transform_value v t := by
  intro f
  induction f using Nat.strong_induction_on with
  | _ f IH =>
    intro v t hf
    cases f with
    | zero => cases hf
    | succ g =>
      show transformGo (g + 1) v t = transformGo (t.length + 1) v t
      by_cases hl : pyStartsWith t "list." = true
      · have hbase := pyReplace_length_lt t hl
        have hfun : (fun it => transformGo g it (pyReplace t "list." ""))
            = (fun it => transformGo t.length it (pyReplace t "list." "")) := by
          funext x
          rw [IH g (by omega) x (pyReplace t "list." "") (by omega),
            IH t.length (by omega) x (pyReplace t "list." "") hbase]
        rw [transformGo_succ, transformGo_succ, if_pos hl, if_pos hl, hfun]
      · have hlf : pyStartsWith t "list." = false := by
          rw [Bool.not_eq_true] at hl
          exact hl
        rw [transformGo_succ, transformGo_succ, hlf]
        rfl

/-- For a `list.`-prefixed type, `transform_value` is exactly
`transform_list_value` (the source dispatches to `_transform_list_value`). -/
theorem transform_value_list_eq (v : PyVal) (t : String) (h : pyStartsWith t "list." = true) :
    transform_value v t = transform_list_value v t := by
  have hbase := pyReplace_length_lt t h
  show transformGo (t.length + 1) v t = _
  rw [transformGo_succ, if_pos h]
  rw [show (fun it => transformGo t.length it (pyReplace t "list." ""))
      = (fun it => transform_value it (pyReplace t "list." "")) from
      funext fun y => transformGo_fuel t.length y (pyReplace t "list." "") hbase]
  rfl

/-- `mapTransform` on a one-element list. -/
theorem mapTransform_single (trans : PyVal → Except PyErr String) (x : PyVal) :
    mapTransform trans [x]
      = (match trans x with
         | .ok s => .ok [s]
         | .error e => .error e) := rfl

/-- A value that coerces to the one-element sequence of itself transforms,
under a list type, to the one-element JSON array of its base-type
transform. -/
theorem match_map_single (trans : PyVal → Except PyErr String) (v : PyVal) :
    (match mapTransform trans [v] with
     | .ok ss => (.ok (json_dumps (.list (ss.map PyVal.str))) : Except PyErr String)
     | .error e => .error e)
    = (match trans v with
       | .ok s => .ok (json_dumps (.list [.str s]))
       | .error e => .error e) := by
  cases htv : trans v with
  | ok s => rw [mapTransform_single, htv]; rfl
  | error e => rw [mapTransform_single, htv]

/-- A value that coerces to the one-element sequence of itself transforms,
under a list type, to the one-element JSON array of its base-type
transform. -/
theorem transform_list_single (v : PyVal) (t : String) (h : pyStartsWith t "list." = true)
    (hx : coerceToSeq v = .list [v]) :
    transform_value v t
      = (match transform_value v (pyReplace t "list." "") with
         | .ok s => .ok (json_dumps (.list [.str s]))
         | .error e => .error e) := by
  rw [transform_value_list_eq v t h]
  unfold transform_list_value
  rw [hx, show pyIter (.list [v]) = .ok [v] from rfl]
  show (match mapTransform (fun it => transform_value it (pyReplace t "list." "")) [v] with
        | .ok ss => (.ok (json_dumps (.list (ss.map PyVal.str))) : Except PyErr String)
        | .error e => .error e)
      = _
  exact match_map_single (fun it => transform_value it (pyReplace t "list." "")) v

/-- C3 counterexample: a bare scalar string does not always yield a
one-element JSON array.  The string `"\"ab\""` — a scalar that happens to be
valid JSON for the string `ab` — is parsed, and the parsed string is then
iterated character-wise, producing the two-element array `["a", "b"]`; the
scalar string `"1"` parses to the integer `1`, whose iteration raises an
uncaught `TypeError` and yields no array at all. -/
theorem C3_counterexample_scalar_string :
    transform_value (.str "\"ab\"") "list.single_line_text_field" = .ok "[\"a\", \"b\"]"
    ∧ json_loads "[\"a\", \"b\"]" = some (.list [.str "a", .str "b"])
    ∧ transform_value (.str "1") "list.number_integer" = .error .typeError :=
  ⟨rfl, rfl, rfl⟩

/-- C3, amended: under a `list.` type, an empty sequence yields exactly
`"[]"`, and a bare non-string non-sequence scalar yields the one-element
JSON array of its base-type transform; a string input is first tried as
JSON — on parse failure the whole string becomes the single element — but a
string that parses as a JSON value is not wrapped: the parsed value itself is
iterated, element by element, against the base type. -/
theorem C3_list_coercion_amended :
    (∀ t : String, pyStartsWith t "list." = true → transform_value (.list []) t = .ok "[]")
    ∧ (∀ (x : PyVal) (t : String), pyStartsWith t "list." = true →
        (∀ s, x ≠ .str s) → (∀ xs, x ≠ .list xs) →
        transform_value x t
          = (match transform_value x (pyReplace t "list." "") with
             | .ok s => .ok (json_dumps (.list [.str s]))
             | .error e => .error e))
    ∧ (∀ (s t : String), pyStartsWith t "list." = true → json_loads s = Option.none →
        transform_value (.str s) t
          = (match transform_value (.str s) (pyReplace t "list." "") with
             | .ok r => .ok (json_dumps (.list [.str r]))
             | .error e => .error e))
    ∧ (∀ (s t : String) (j : PyVal), pyStartsWith t "list." = true → json_loads s = some j →
        transform_value (.str s) t
          = (match pyIter j with
             | .error e => .error e
             | .ok items =>
               match mapTransform (fun it => transform_value it (pyReplace t "list." "")) items with
               | .ok ss => .ok (json_dumps (.list (ss.map PyVal.str)))
               | .error e => .error e)) := by
  refine ⟨fun t h => ?_, fun x t h hs hl => ?_, fun s t h hnone => ?_, fun s t j h hj => ?_⟩
  · rw [transform_value_list_eq _ t h]
    rfl
  · refine transform_list_single x t h ?_
    cases x with
    | str s => exact absurd rfl (hs s)
    | list xs => exact absurd rfl (hl xs)
    | int n => rfl
    | float q => rfl
    | bool b => rfl
    | none => rfl
    | dict kvs => rfl
  · refine transform_list_single (.str s) t h ?_
    show (match json_loads s with
          | some parsed => parsed
          | Option.none => .list [.str s]) = .list [.str s]
    rw [hnone]
  · rw [transform_value_list_eq _ t h]
    unfold transform_list_value
    show (match pyIter (coerceToSeq (.str s)) with
          | .error e => (.error e : Except PyErr String)
          | .ok items =>
            match mapTransform (fun it => transform_value it (pyReplace t "list." "")) items with
            | .ok ss => .ok (json_dumps (.list (ss.map PyVal.str)))
            | .error e => .error e)
        = _
    have hc : coerceToSeq (.str s) = j := by
      show (match json_loads s with
            | some parsed => parsed
            | Option.none => .list [.str s]) = j
      rw [hj]
    rw [hc]

/-- Witness for the amended C3 at concrete inputs. -/
theorem C3_list_coercion_amended_witness :
    transform_value (.list []) "list.number_integer" = .ok "[]"
    ∧ transform_value (.int 5) "list.number_integer" = .ok "[\"5\"]"
    ∧ transform_value (.str "single") "list.single_line_text_field" = .ok "[\"single\"]"
    ∧ transform_value (.str "[1, 2]") "list.number_integer" = .ok "[\"1\", \"2\"]" := by
  refine ⟨C3_list_coercion_amended.1 "list.number_integer" rfl, ?_, ?_, ?_⟩
  · rw [C3_list_coercion_amended.2.1 (.int 5) "list.number_integer" rfl
      (fun s hh => by cases hh) (fun xs hh => by cases hh)]
    rfl
  · rw [C3_list_coercion_amended.2.2.1 "single" "list.single_line_text_field" rfl rfl]
    rfl
  · rw [C3_list_coercion_amended.2.2.2 "[1, 2]" "list.number_integer" (.list [.int 1, .int 2]) rfl rfl]
    rfl

/-! ## Digit and number-rendering lemmas -/

/-- `digitChar10` produces digit characters. -/
theorem digitChar10_isDigit (m : Nat) (h : m ≤ 9) : isDigitChar (digitChar10 m) = true := by
  interval_cases m <;> decide

/-- `digitChar10` only hits `'0'` at zero. -/
theorem digitChar10_eq_zero (m : Nat) (h : m ≤ 9) : digitChar10 m = '0' → m = 0 := by
  interval_cases m <;> decide

/-- Structure of the fuelled digit rendering: non-empty, all digits, and a
leading `'0'` only for zero itself. -/
theorem natDigitsGo_facts : ∀ (f m : Nat), m < f →
    ∃ c cs, natDigitsGo f m = c :: cs ∧ isDigitChar c = true
      ∧ (∀ d ∈ cs, isDigitChar d = true) ∧ (c = '0' → m = 0 ∧ cs = []) := by
  intro f
  induction f with
  | zero => intro m hm; cases hm
  | succ g ih =>
    intro m hm
    by_cases h10 : m < 10
    · refine ⟨digitChar10 m, [], ?_, digitChar10_isDigit m (by omega), by simp, ?_⟩
      · rw [natDigitsGo, if_pos h10]
      · intro hc
        exact ⟨digitChar10_eq_zero m (by omega) hc, rfl⟩
    · have hdiv : m / 10 < g := by
        have h1 : m / 10 < m := Nat.div_lt_self (by omega) (by omega)
        omega
      obtain ⟨c, cs, heq, hcd, hall, hzero⟩ := ih (m / 10) hdiv
      refine ⟨c, cs ++ [digitChar10 (m % 10)], ?_, hcd, ?_, ?_⟩
      · rw [natDigitsGo, if_neg h10, heq]
        rfl
      · intro d hd
        rcases List.mem_append.mp hd with hin | hin
        · exact hall d hin
        · rcases List.mem_singleton.mp hin with rfl
          exact digitChar10_isDigit (m % 10) (by omega)
      · intro hc
        obtain ⟨hm0, -⟩ := hzero hc
        have : m < 10 := by omega
        omega

/-- Structure of `natDigits`. -/
theorem natDigits_facts (m : Nat) :
    ∃ c cs, natDigits m = c :: cs ∧ isDigitChar c = true
      ∧ (∀ d ∈ cs, isDigitChar d = true) ∧ (c = '0' → m = 0 ∧ cs = []) :=
  natDigitsGo_facts (m + 1) m (by omega)

/-- `spanDigits` consumes exactly a block of digits when what follows cannot
start a digit. -/
theorem spanDigits_append (ds rest : List Char)
    (hds : ∀ c ∈ ds, isDigitChar c = true)
    (hrest : match rest with | [] => True | c :: _ => isDigitChar c = false) :
    spanDigits (ds ++ rest) = (ds, rest) := by
  induction ds with
  | nil =>
    simp only [List.nil_append]
    cases rest with
    | nil => rfl
    | cons c cs =>
      rw [spanDigits, if_neg (by simp [hrest])]
  | cons c cs ih =>
    have hc : isDigitChar c = true := hds c (List.mem_cons_self c cs)
    rw [List.cons_append, spanDigits, if_pos hc,
      ih (fun d hd => hds d (List.mem_cons_of_mem c hd))]

/-! ## Number parsing inverts number rendering -/

/-- A digit character differs from every character whose code lies outside
the digit range. -/
theorem digit_ne (c : Char) (h : isDigitChar c = true) (d : Char)
    (hd : d.toNat < 48 ∨ 57 < d.toNat) : c ≠ d := by
  intro hc
  subst hc
  have := of_decide_eq_true h
  omega

/-- `parseFracPart` on a dot followed by digits. -/
theorem parseFracPart_dot (fs rest : List Char) (h0 : fs ≠ [])
    (hfs : ∀ d ∈ fs, isDigitChar d = true)
    (hrest : numSafe rest = true) :
    parseFracPart ('.' :: (fs ++ rest)) = some (fs, rest) := by
  have hspan : spanDigits (fs ++ rest) = (fs, rest) := by
    apply spanDigits_append fs rest hfs
    cases rest with
    | nil => trivial
    | cons c cs =>
      rw [numSafe] at hrest
      have h1 := (Bool.and_eq_true _ _).mp hrest
      have h2 := (Bool.and_eq_true _ _).mp h1.1
      have h3 := (Bool.and_eq_true _ _).mp h2.1
      simpa using h3.1
  rw [parseFracPart, hspan]
  cases fs with
  | nil => exact absurd rfl h0
  | cons f fs' => rfl

/-- `parseFracPart` when the input cannot start a fraction. -/
theorem parseFracPart_safe (l : List Char) (h : numSafe l = true) :
    parseFracPart l = some ([], l) := by
  cases l with
  | nil => rfl
  | cons c cs =>
    rw [numSafe] at h
    have h1 := (Bool.and_eq_true _ _).mp h
    have h2 := (Bool.and_eq_true _ _).mp h1.1
    have h3 := (Bool.and_eq_true _ _).mp h2.1
    have hdot : ¬(c = '.') := by simpa using h3.2
    rw [parseFracPart.eq_def]
    split
    · next heq => cases heq; exact absurd rfl hdot
    · rfl

/-- `parseExpPart` when the input cannot start an exponent. -/
theorem parseExpPart_safe (l : List Char) (h : numSafe l = true) :
    parseExpPart l = some (Option.none, l) := by
  cases l with
  | nil => rfl
  | cons c cs =>
    rw [numSafe] at h
    have h1 := (Bool.and_eq_true _ _).mp h
    have he : ¬(c = 'e') := by
      have := (Bool.and_eq_true _ _).mp h1.1
      simpa using this.2
    have hE : ¬(c = 'E') := by simpa using h1.2
    rw [parseExpPart]
    rw [if_neg (by simp [he, hE])]

/-- `parseIntPart` consumes exactly a rendered digit block. -/
theorem parseIntPart_digits (c : Char) (cs rest : List Char)
    (hc : isDigitChar c = true) (hcs : ∀ d ∈ cs, isDigitChar d = true)
    (hzero : c = '0' → cs = [])
    (hrest : match rest with | [] => True | r :: _ => isDigitChar r = false) :
    parseIntPart ((c :: cs) ++ rest) = some (c :: cs, rest) := by
  rw [List.cons_append, parseIntPart, if_pos hc]
  by_cases h0 : c = '0'
  · rw [if_pos h0]
    rw [hzero h0] at *
    cases rest with
    | nil => rw [h0]; rfl
    | cons r rs => rw [h0]; rfl
  · rw [if_neg h0, spanDigits_append cs rest hcs hrest]

/-- Components of `numSafe` on a non-empty list. -/
theorem numSafe_cons (c : Char) (cs : List Char) (h : numSafe (c :: cs) = true) :
    isDigitChar c = false ∧ ¬(c = '.') ∧ ¬(c = 'e') ∧ ¬(c = 'E') := by
  rw [numSafe] at h
  have h1 := (Bool.and_eq_true _ _).mp h
  have h2 := (Bool.and_eq_true _ _).mp h1.1
  have h3 := (Bool.and_eq_true _ _).mp h2.1
  exact ⟨by simpa using h3.1, by simpa using h3.2, by simpa using h2.2, by simpa using h1.2⟩

/-- `parseJNum` accepts every rendered number: an optional minus sign, a
digit block without spurious leading zero, an optional dot-and-digits
fraction, followed by number-safe input. -/
theorem parseJNum_digits (neg : Bool) (c : Char) (cs fs rest : List Char)
    (hc : isDigitChar c = true) (hcs : ∀ d ∈ cs, isDigitChar d = true)
    (hzero : c = '0' → cs = [])
    (hfs : fs = [] ∨ (fs ≠ [] ∧ ∀ d ∈ fs, isDigitChar d = true))
    (hrest : numSafe rest = true) :
    ∃ v, parseJNum ((if neg then ['-'] else []) ++ (c :: cs) ++
        (if fs = [] then [] else '.' :: fs) ++ rest) = some (v, rest) := by
  have hsign : parseSign ((if neg then ['-'] else []) ++ ((c :: cs) ++
      ((if fs = [] then [] else '.' :: fs) ++ rest)))
      = (neg, (c :: cs) ++ ((if fs = [] then [] else '.' :: fs) ++ rest)) := by
    cases neg with
    | true => rfl
    | false =>
      show parseSign ((c :: cs) ++ ((if fs = [] then [] else '.' :: fs) ++ rest))
          = (false, (c :: cs) ++ ((if fs = [] then [] else '.' :: fs) ++ rest))
      rw [List.cons_append, parseSign, if_neg (digit_ne c hc '-' (by decide))]
  have hR1 : (match (if fs = [] then [] else '.' :: fs) ++ rest with
      | [] => True | r :: _ => isDigitChar r = false) := by
    by_cases hf : fs = []
    · rw [if_pos hf, List.nil_append]
      cases rest with
      | nil => trivial
      | cons r rs => exact (numSafe_cons r rs hrest).1
    · rw [if_neg hf, List.cons_append]
      rfl
  have hint := parseIntPart_digits c cs ((if fs = [] then [] else '.' :: fs) ++ rest) hc hcs hzero hR1
  have hfrac : parseFracPart ((if fs = [] then [] else '.' :: fs) ++ rest) = some (fs, rest) := by
    by_cases hf : fs = []
    · rw [if_pos hf, List.nil_append, parseFracPart_safe rest hrest, hf]
    · rw [if_neg hf, List.cons_append]
      exact parseFracPart_dot fs rest hf (hfs.resolve_left hf).2 hrest
  have hexp := parseExpPart_safe rest hrest
  have hassoc : (if neg then ['-'] else []) ++ (c :: cs) ++ (if fs = [] then [] else '.' :: fs) ++ rest
      = (if neg then ['-'] else []) ++ ((c :: cs) ++ ((if fs = [] then [] else '.' :: fs) ++ rest)) := by
    simp [List.append_assoc]
  rw [hassoc]
  unfold parseJNum
  rw [hsign]
  simp only [hint, hfrac, hexp]
  by_cases hf : fs = []
  · rw [if_pos (by exact ⟨hf, trivial⟩)]
    exact ⟨_, rfl⟩
  · rw [if_neg (by intro hand; exact hf hand.1)]
    exact ⟨_, rfl⟩

/-- Fractional-part digits are decimal digits whenever the fraction is in
`[0, 1)` with a positive denominator. -/
theorem fracDigitsGo_all_digits : ∀ (f : Nat) (x : PyFloat), 0 < x.den →
    0 ≤ x.num → x.num < x.den → ∀ c ∈ fracDigitsGo f x, isDigitChar c = true := by
  intro f
  induction f with
  | zero => intro x _ _ _ c hc; cases hc
  | succ g ih =>
    intro x hden hlo hhi c hc
    rw [fracDigitsGo] at hc
    by_cases hz : x.isZero
    · rw [if_pos hz] at hc; cases hc
    · rw [if_neg hz] at hc
      have hdval : x.mulTen.floor = (x.num * 10) / x.den := by
        show (x.num * 10).fdiv x.den = _
        exact Int.fdiv_eq_ediv _ (Int.le_of_lt hden)
      have hd0 : 0 ≤ x.mulTen.floor := by
        rw [hdval]
        exact Int.ediv_nonneg (by omega) (by omega)
      have hd9 : x.mulTen.floor ≤ 9 := by
        rw [hdval]
        have : x.num * 10 / x.den < 10 := by
          rw [Int.ediv_lt_iff_lt_mul hden]
          omega
        omega
      rcases List.mem_cons.mp hc with rfl | hmem
      · exact digitChar10_isDigit _ (by omega)
      · have hnum' : (x.mulTen.subInt x.mulTen.floor).num = (x.num * 10) % x.den := by
          show x.num * 10 - ((x.num * 10).fdiv x.den) * x.den = _
          rw [Int.fdiv_eq_ediv _ (Int.le_of_lt hden), Int.emod_def]
          ring
        have hden' : (x.mulTen.subInt x.mulTen.floor).den = x.den := rfl
        apply ih (x.mulTen.subInt x.mulTen.floor) (by rw [hden']; exact hden) _ _ c hmem
        · rw [hnum']
          exact Int.emod_nonneg _ (by omega)
        · rw [hnum', hden']
          exact Int.emod_lt_of_pos _ hden

/-- Shape of a rendered float: optional sign, digit block (leading zero only
for a zero integer part), a dot, then a non-empty digit block. -/
theorem pyStrOfFloat_shape (q : PyFloat) (hq : 0 < q.den) :
    ∃ (neg : Bool) (c : Char) (cs fs : List Char),
      (pyStrOfFloat q).data = (if neg then ['-'] else []) ++ (c :: cs) ++ '.' :: fs
      ∧ isDigitChar c = true ∧ (∀ d ∈ cs, isDigitChar d = true) ∧ (c = '0' → cs = [])
      ∧ fs ≠ [] ∧ (∀ d ∈ fs, isDigitChar d = true) := by
  have habs_den : q.abs.den = q.den := by
    rw [PyFloat.abs]
    split <;> rfl
  have habs_num : 0 ≤ q.abs.num ∨ q.abs.num < 0 := le_or_lt 0 q.abs.num |>.imp id id
  have hfr_num : (q.abs.subInt q.abs.floor).num = q.abs.num % q.abs.den := by
    show q.abs.num - (q.abs.num.fdiv q.abs.den) * q.abs.den = _
    rw [Int.fdiv_eq_ediv _ (by omega), Int.emod_def]
    ring
  have hfr_den : (q.abs.subInt q.abs.floor).den = q.abs.den := rfl
  have hfr_lo : 0 ≤ (q.abs.subInt q.abs.floor).num := by
    rw [hfr_num]
    exact Int.emod_nonneg _ (by omega)
  have hfr_hi : (q.abs.subInt q.abs.floor).num < (q.abs.subInt q.abs.floor).den := by
    rw [hfr_num, hfr_den]
    exact Int.emod_lt_of_pos _ (by omega)
  obtain ⟨c, cs, hds, hc, hcs, hzero⟩ := natDigits_facts q.abs.floor.toNat
  refine ⟨q.isNeg, c, cs,
    (if (q.abs.subInt q.abs.floor).isZero then ['0'] else fracDigitsGo 60 (q.abs.subInt q.abs.floor)),
    ?_, hc, hcs, fun h0 => (hzero h0).2, ?_, ?_⟩
  · show ((if q.isNeg then "-" else "") ++ String.mk (natDigits q.abs.floor.toNat) ++ "." ++
        String.mk (if (q.abs.subInt q.abs.floor).isZero then ['0']
          else fracDigitsGo 60 (q.abs.subInt q.abs.floor))).data = _
    rw [String.data_append, String.data_append, String.data_append, hds]
    cases hn : q.isNeg <;> simp [String.mk]
  · by_cases hz : (q.abs.subInt q.abs.floor).isZero
    · rw [if_pos hz]; simp
    · rw [if_neg hz]
      rw [fracDigitsGo]
      rw [if_neg hz]
      simp
  · intro d hd
    by_cases hz : (q.abs.subInt q.abs.floor).isZero
    · rw [if_pos hz] at hd
      rcases List.mem_singleton.mp hd with rfl
      decide
    · rw [if_neg hz] at hd
      exact fracDigitsGo_all_digits 60 _ (by rw [hfr_den, habs_den]; exact hq) hfr_lo hfr_hi d hd

/-- Shape of a rendered integer: optional sign and a digit block. -/
theorem intToDecimal_shape (n : Int) :
    ∃ (neg : Bool) (c : Char) (cs : List Char),
      (intToDecimal n).data = (if neg then ['-'] else []) ++ (c :: cs)
      ∧ isDigitChar c = true ∧ (∀ d ∈ cs, isDigitChar d = true) ∧ (c = '0' → cs = []) := by
  by_cases hn : n < 0
  · obtain ⟨c, cs, hds, hc, hcs, hzero⟩ := natDigits_facts n.natAbs
    refine ⟨true, c, cs, ?_, hc, hcs, fun h0 => (hzero h0).2⟩
    rw [intToDecimal, if_pos hn, String.data_append, hds]
    rfl
  · obtain ⟨c, cs, hds, hc, hcs, hzero⟩ := natDigits_facts n.toNat
    refine ⟨false, c, cs, ?_, hc, hcs, fun h0 => (hzero h0).2⟩
    rw [intToDecimal, if_neg hn]
    show (natDigits n.toNat) = _
    rw [hds]
    rfl

/-- `parseJNum` accepts a rendered integer. -/
theorem parseJNum_intToDecimal (n : Int) (rest : List Char) (hrest : numSafe rest = true) :
    ∃ v, parseJNum ((intToDecimal n).data ++ rest) = some (v, rest) := by
  obtain ⟨neg, c, cs, hshape, hc, hcs, hzero⟩ := intToDecimal_shape n
  have h := parseJNum_digits neg c cs [] rest hc hcs hzero (Or.inl rfl) hrest
  rw [if_pos rfl] at h
  obtain ⟨v, hv⟩ := h
  refine ⟨v, ?_⟩
  rw [hshape, List.append_assoc]
  rw [show (if neg then ['-'] else []) ++ (c :: cs) ++ [] ++ rest
      = (if neg then ['-'] else []) ++ ((c :: cs) ++ rest) by simp] at hv
  exact hv

/-- `parseJNum` accepts a rendered float. -/
theorem parseJNum_pyStrOfFloat (q : PyFloat) (hq : 0 < q.den) (rest : List Char)
    (hrest : numSafe rest = true) :
    ∃ v, parseJNum ((pyStrOfFloat q).data ++ rest) = some (v, rest) := by
  obtain ⟨neg, c, cs, fs, hshape, hc, hcs, hzero, hfs0, hfs⟩ := pyStrOfFloat_shape q hq
  have h := parseJNum_digits neg c cs fs rest hc hcs hzero (Or.inr ⟨hfs0, hfs⟩) hrest
  rw [if_neg hfs0] at h
  obtain ⟨v, hv⟩ := h
  refine ⟨v, ?_⟩
  rw [hshape]
  rw [show (if neg then ['-'] else []) ++ (c :: cs) ++ '.' :: fs ++ rest
      = ((if neg then ['-'] else []) ++ (c :: cs) ++ '.' :: fs) ++ rest from by simp] at hv
  exact hv

/-! ## String parsing inverts string escaping -/

/-- Valid codepoint ranges of any `Char`. -/
theorem char_valid_ranges (c : Char) :
    c.toNat < 55296 ∨ (57343 < c.toNat ∧ c.toNat < 1114112) := c.valid

/-- `hexVal` decodes `hexDigitChar`. -/
theorem hexVal_hexDigitChar (d : Nat) (h : d < 16) : hexVal (hexDigitChar d) = some d := by
  interval_cases d <;> decide

/-- `hexQuad4` decodes the four digits of `hex4`. -/
theorem hexQuad4_hex4 (n : Nat) (h : n < 65536) :
    hexQuad4 (hexDigitChar (n / 4096 % 16)) (hexDigitChar (n / 256 % 16))
      (hexDigitChar (n / 16 % 16)) (hexDigitChar (n % 16)) = some n := by
  rw [hexQuad4, hexVal_hexDigitChar _ (by omega), hexVal_hexDigitChar _ (by omega),
    hexVal_hexDigitChar _ (by omega), hexVal_hexDigitChar _ (by omega)]
  show some (n / 4096 % 16 * 4096 + n / 256 % 16 * 256 + n / 16 % 16 * 16 + n % 16) = some n
  congr 1
  omega

/-- One-step unfolding of `parseJEsc` at a `u` escape. -/
theorem parseJEsc_u_eq (f : Nat) (h1 h2 h3 h4 : Char) (r2 : List Char) :
    parseJEsc (f + 1) ('u' :: h1 :: h2 :: h3 :: h4 :: r2)
      = (match hexQuad4 h1 h2 h3 h4 with
         | some n =>
           if 55296 ≤ n ∧ n < 56320 then
             (match r2 with
              | '\\' :: 'u' :: g1 :: g2 :: g3 :: g4 :: r3 =>
                (match hexQuad4 g1 g2 g3 g4 with
                 | some m =>
                   if 56320 ≤ m ∧ m < 57344 then
                     consStr (Char.ofNat (65536 + (n - 55296) * 1024 + (m - 56320))) (parseJStr f r3)
                   else Option.none
                 | Option.none => Option.none)
              | _ => Option.none)
           else if 56320 ≤ n ∧ n < 57344 then Option.none
           else consStr (Char.ofNat n) (parseJStr f r2)
         | Option.none => Option.none) := rfl

/-- A `\uXXXX` escape outside the surrogate range decodes to a single
character and continues the string. -/
theorem parseJEsc_u (f n : Nat) (hn : n < 65536) (hsur : ¬(55296 ≤ n ∧ n < 57344))
    (X : List Char) :
    parseJEsc (f + 1) ('u' :: (hex4 n ++ X)) = consStr (Char.ofNat n) (parseJStr f X) := by
  have hcons : 'u' :: (hex4 n ++ X)
      = 'u' :: hexDigitChar (n / 4096 % 16) :: hexDigitChar (n / 256 % 16)
        :: hexDigitChar (n / 16 % 16) :: hexDigitChar (n % 16) :: X := rfl
  rw [hcons, parseJEsc_u_eq, hexQuad4_hex4 n hn]
  show (if 55296 ≤ n ∧ n < 56320 then _ else if 56320 ≤ n ∧ n < 57344 then Option.none
        else consStr (Char.ofNat n) (parseJStr f X)) = consStr (Char.ofNat n) (parseJStr f X)
  rw [if_neg (by omega), if_neg (by omega)]

/-- A high-surrogate escape followed by a low-surrogate escape decodes to a
single character and continues the string (abstract digit characters). -/
theorem parseJEsc_u_pair_vals (f : Nat) (h1 h2 h3 h4 g1 g2 g3 g4 : Char) (X : List Char)
    (n m : Nat)
    (e1 : hexQuad4 h1 h2 h3 h4 = some n) (e2 : hexQuad4 g1 g2 g3 g4 = some m)
    (hn : 55296 ≤ n ∧ n < 56320) (hm : 56320 ≤ m ∧ m < 57344) :
    parseJEsc (f + 1) ('u' :: h1 :: h2 :: h3 :: h4 :: '\\' :: 'u' :: g1 :: g2 :: g3 :: g4 :: X)
      = consStr (Char.ofNat (65536 + (n - 55296) * 1024 + (m - 56320))) (parseJStr f X) := by
  rw [parseJEsc_u_eq, e1]
  split
  next heq =>
    cases heq
    rw [if_pos hn]
    split
    next a b c d r3 heq2 =>
      cases heq2
      rw [e2]
      split
      next heq3 => cases heq3; rw [if_pos hm]
      next heq3 => cases heq3
    next hne =>
      exact absurd rfl (hne g1 g2 g3 g4 X)
  next heq => cases heq

/-- A surrogate-pair escape decodes to a single character and continues the
string. -/
theorem parseJEsc_u_pair (f n : Nat) (hlo : 65536 ≤ n) (hhi : n < 1114112) (X : List Char) :
    ∃ ch, parseJEsc (f + 1) ('u' :: (hex4 (55296 + (n - 65536) / 1024)
        ++ ('\\' :: 'u' :: (hex4 (56320 + (n - 65536) % 1024) ++ X))))
      = consStr ch (parseJStr f X) := by
  have hcons : 'u' :: (hex4 (55296 + (n - 65536) / 1024)
        ++ ('\\' :: 'u' :: (hex4 (56320 + (n - 65536) % 1024) ++ X)))
      = 'u' :: hexDigitChar ((55296 + (n - 65536) / 1024) / 4096 % 16)
        :: hexDigitChar ((55296 + (n - 65536) / 1024) / 256 % 16)
        :: hexDigitChar ((55296 + (n - 65536) / 1024) / 16 % 16)
        :: hexDigitChar ((55296 + (n - 65536) / 1024) % 16)
        :: '\\' :: 'u' :: hexDigitChar ((56320 + (n - 65536) % 1024) / 4096 % 16)
        :: hexDigitChar ((56320 + (n - 65536) % 1024) / 256 % 16)
        :: hexDigitChar ((56320 + (n - 65536) % 1024) / 16 % 16)
        :: hexDigitChar ((56320 + (n - 65536) % 1024) % 16) :: X := rfl
  have hdivlt : (n - 65536) / 1024 < 1024 := by omega
  refine ⟨Char.ofNat (65536 + (55296 + (n - 65536) / 1024 - 55296) * 1024
    + (56320 + (n - 65536) % 1024 - 56320)), ?_⟩
  rw [hcons]
  exact parseJEsc_u_pair_vals f _ _ _ _ _ _ _ _ X
    (55296 + (n - 65536) / 1024) (56320 + (n - 65536) % 1024)
    (hexQuad4_hex4 _ (by omega)) (hexQuad4_hex4 _ (by omega))
    ⟨by omega, by omega⟩ ⟨by omega, by omega⟩

/-- One-step unfolding of `parseJStr`. -/
theorem parseJStr_cons (f : Nat) (c : Char) (cs : List Char) :
    parseJStr (f + 1) (c :: cs)
      = (if c = '"' then some ([], cs)
         else if c = '\\' then parseJEsc f cs
         else if c.toNat < 32 then Option.none
         else consStr c (parseJStr f cs)) := rfl

/-- Step: a quote closes the string. -/
theorem parseJStr_quote (f : Nat) (cs : List Char) :
    parseJStr (f + 1) ('"' :: cs) = some ([], cs) := rfl

/-- Step: a backslash hands over to the escape parser. -/
theorem parseJStr_backslash (f : Nat) (cs : List Char) :
    parseJStr (f + 1) ('\\' :: cs) = parseJEsc f cs := rfl

/-- Step: the escaped quote. -/
theorem parseJEsc_quote (f : Nat) (r : List Char) :
    parseJEsc (f + 1) ('"' :: r) = consStr '"' (parseJStr f r) := rfl

/-- Step: the escaped backslash. -/
theorem parseJEsc_backslash (f : Nat) (r : List Char) :
    parseJEsc (f + 1) ('\\' :: r) = consStr '\\' (parseJStr f r) := rfl

/-- Step: the escaped newline. -/
theorem parseJEsc_n (f : Nat) (r : List Char) :
    parseJEsc (f + 1) ('n' :: r) = consStr '\n' (parseJStr f r) := rfl

/-- Step: the escaped tab. -/
theorem parseJEsc_t (f : Nat) (r : List Char) :
    parseJEsc (f + 1) ('t' :: r) = consStr '\t' (parseJStr f r) := rfl

/-- Step: the escaped carriage return. -/
theorem parseJEsc_r (f : Nat) (r : List Char) :
    parseJEsc (f + 1) ('r' :: r) = consStr '\r' (parseJStr f r) := rfl

/-- Step: the escaped backspace. -/
theorem parseJEsc_b (f : Nat) (r : List Char) :
    parseJEsc (f + 1) ('b' :: r) = consStr (Char.ofNat 8) (parseJStr f r) := rfl

/-- Step: the escaped form feed. -/
theorem parseJEsc_f (f : Nat) (r : List Char) :
    parseJEsc (f + 1) ('f' :: r) = consStr (Char.ofNat 12) (parseJStr f r) := rfl

/-- Step: an ordinary character is consumed and prepended. -/
theorem parseJStr_plain (f : Nat) (c : Char) (cs : List Char) (h1 : ¬c = '"')
    (h2 : ¬c = '\\') (h3 : ¬c.toNat < 32) :
    parseJStr (f + 1) (c :: cs) = consStr c (parseJStr f cs) := by
  rw [parseJStr_cons, if_neg h1, if_neg h2, if_neg h3]

/-- Step: `consStr` on a successful parse. -/
theorem consStr_some (c : Char) (b r : List Char) :
    consStr c (some (b, r)) = some (c :: b, r) := rfl

/-- String parsing inverts string escaping: the escaped body followed by a
closing quote parses back, leaving exactly the trailing input. -/
theorem parseJStr_escape : ∀ (cs rest : List Char) (f : Nat),
    2 * (escapeChars cs).length + 1 ≤ f →
    ∃ body, parseJStr f (escapeChars cs ++ '"' :: rest) = some (body, rest) := by
  intro cs
  induction cs with
  | nil =>
    intro rest f hf
    obtain ⟨g, rfl⟩ : ∃ g, f = g + 1 := ⟨f - 1, by omega⟩
    exact ⟨[], parseJStr_quote g rest⟩
  | cons c cs ih =>
    intro rest f hf
    rw [show escapeChars (c :: cs) = escapeChar c ++ escapeChars cs from rfl] at hf ⊢
    rw [List.length_append] at hf
    by_cases h1 : c = '"'
    · rw [escapeChar, if_pos h1] at hf ⊢
      obtain ⟨g, rfl⟩ : ∃ g, f = g + 1 + 1 := ⟨f - 2, by simp at hf; omega⟩
      obtain ⟨body, hb⟩ := ih rest g (by simp at hf; omega)
      refine ⟨'"' :: body, ?_⟩
      simp only [List.cons_append, List.nil_append]
      rw [parseJStr_backslash, parseJEsc_quote, hb, consStr_some]
    · rw [escapeChar, if_neg h1] at hf ⊢
      by_cases h2 : c = '\\'
      · rw [if_pos h2] at hf ⊢
        obtain ⟨g, rfl⟩ : ∃ g, f = g + 1 + 1 := ⟨f - 2, by simp at hf; omega⟩
        obtain ⟨body, hb⟩ := ih rest g (by simp at hf; omega)
        refine ⟨'\\' :: body, ?_⟩
        simp only [List.cons_append, List.nil_append]
        rw [parseJStr_backslash, parseJEsc_backslash, hb, consStr_some]
      · rw [if_neg h2] at hf ⊢
        by_cases h3 : c = '\n'
        · rw [if_pos h3] at hf ⊢
          obtain ⟨g, rfl⟩ : ∃ g, f = g + 1 + 1 := ⟨f - 2, by simp at hf; omega⟩
          obtain ⟨body, hb⟩ := ih rest g (by simp at hf; omega)
          refine ⟨'\n' :: body, ?_⟩
          simp only [List.cons_append, List.nil_append]
          rw [parseJStr_backslash, parseJEsc_n, hb, consStr_some]
        · rw [if_neg h3] at hf ⊢
          by_cases h4 : c = '\t'
          · rw [if_pos h4] at hf ⊢
            obtain ⟨g, rfl⟩ : ∃ g, f = g + 1 + 1 := ⟨f - 2, by simp at hf; omega⟩
            obtain ⟨body, hb⟩ := ih rest g (by simp at hf; omega)
            refine ⟨'\t' :: body, ?_⟩
            simp only [List.cons_append, List.nil_append]
            rw [parseJStr_backslash, parseJEsc_t, hb, consStr_some]
          · rw [if_neg h4] at hf ⊢
            by_cases h5 : c = '\r'
            · rw [if_pos h5] at hf ⊢
              obtain ⟨g, rfl⟩ : ∃ g, f = g + 1 + 1 := ⟨f - 2, by simp at hf; omega⟩
              obtain ⟨body, hb⟩ := ih rest g (by simp at hf; omega)
              refine ⟨'\r' :: body, ?_⟩
              simp only [List.cons_append, List.nil_append]
              rw [parseJStr_backslash, parseJEsc_r, hb, consStr_some]
            · rw [if_neg h5] at hf ⊢
              by_cases h6 : c = Char.ofNat 8
              · rw [if_pos h6] at hf ⊢
                obtain ⟨g, rfl⟩ : ∃ g, f = g + 1 + 1 := ⟨f - 2, by simp at hf; omega⟩
                obtain ⟨body, hb⟩ := ih rest g (by simp at hf; omega)
                refine ⟨Char.ofNat 8 :: body, ?_⟩
                simp only [List.cons_append, List.nil_append]
                rw [parseJStr_backslash, parseJEsc_b, hb, consStr_some]
              · rw [if_neg h6] at hf ⊢
                by_cases h7 : c = Char.ofNat 12
                · rw [if_pos h7] at hf ⊢
                  obtain ⟨g, rfl⟩ : ∃ g, f = g + 1 + 1 := ⟨f - 2, by simp at hf; omega⟩
                  obtain ⟨body, hb⟩ := ih rest g (by simp at hf; omega)
                  refine ⟨Char.ofNat 12 :: body, ?_⟩
                  simp only [List.cons_append, List.nil_append]
                  rw [parseJStr_backslash, parseJEsc_f, hb, consStr_some]
                · rw [if_neg h7] at hf ⊢
                  by_cases h8 : c.toNat < 32
                  · rw [if_pos h8] at hf ⊢
                    obtain ⟨g, rfl⟩ : ∃ g, f = g + 1 + 1 := ⟨f - 2, by simp at hf; omega⟩
                    obtain ⟨body, hb⟩ := ih rest g (by simp at hf; omega)
                    refine ⟨Char.ofNat c.toNat :: body, ?_⟩
                    simp only [List.cons_append, List.append_assoc]
                    rw [parseJStr_backslash,
                      parseJEsc_u g c.toNat (by omega) (by omega), hb, consStr_some]
                  · rw [if_neg h8] at hf ⊢
                    by_cases h9 : c.toNat < 127
                    · rw [if_pos h9] at hf ⊢
                      obtain ⟨g, rfl⟩ : ∃ g, f = g + 1 := ⟨f - 1, by simp at hf; omega⟩
                      obtain ⟨body, hb⟩ := ih rest g (by simp at hf; omega)
                      refine ⟨c :: body, ?_⟩
                      simp only [List.cons_append, List.nil_append]
                      rw [parseJStr_plain g c _ h1 h2 h8, hb, consStr_some]
                    · rw [if_neg h9] at hf ⊢
                      by_cases h10 : c.toNat < 65536
                      · rw [if_pos h10] at hf ⊢
                        obtain ⟨g, rfl⟩ : ∃ g, f = g + 1 + 1 := ⟨f - 2, by simp at hf; omega⟩
                        obtain ⟨body, hb⟩ := ih rest g (by simp at hf; omega)
                        have hval := char_valid_ranges c
                        refine ⟨Char.ofNat c.toNat :: body, ?_⟩
                        simp only [List.cons_append, List.append_assoc]
                        rw [parseJStr_backslash,
                          parseJEsc_u g c.toNat (by omega) (by omega), hb, consStr_some]
                      · rw [if_neg h10] at hf ⊢
                        obtain ⟨g, rfl⟩ : ∃ g, f = g + 1 + 1 := ⟨f - 2, by simp at hf; omega⟩
                        obtain ⟨body, hb⟩ := ih rest g (by simp at hf; omega)
                        have hval := char_valid_ranges c
                        obtain ⟨ch, hch⟩ := parseJEsc_u_pair g c.toNat (by omega) (by omega)
                            (escapeChars cs ++ '"' :: rest)
                        refine ⟨ch :: body, ?_⟩
                        simp only [List.cons_append, List.append_assoc]
                        rw [parseJStr_backslash, hch, hb, consStr_some]

/-! ## Value parsing inverts dumping -/

/-- One-step unfolding of `parseJVal`. -/
theorem parseJVal_cons (f : Nat) (c : Char) (r : List Char) :
    parseJVal (f + 1) (c :: r)
      = (if c = '{' then parseJMembersStart f (skipWS r)
         else if c = '[' then parseJElemsStart f (skipWS r)
         else if c = '"' then
           match parseJStr f r with
           | some (body, rest) => some (.str (String.mk body), rest)
           | Option.none => Option.none
         else if c = 't' then
           match stripChars ['r', 'u', 'e'] r with
           | some rest => some (.bool true, rest)
           | Option.none => Option.none
         else if c = 'f' then
           match stripChars ['a', 'l', 's', 'e'] r with
           | some rest => some (.bool false, rest)
           | Option.none => Option.none
         else if c = 'n' then
           match stripChars ['u', 'l', 'l'] r with
           | some rest => some (.none, rest)
           | Option.none => Option.none
         else if c = '-' ∨ isDigitChar c then parseJNum (c :: r)
         else Option.none) := rfl

/-- Step: a quoted string value. -/
theorem parseJVal_quote (f : Nat) (r : List Char) :
    parseJVal (f + 1) ('"' :: r)
      = (match parseJStr f r with
         | some (body, rest) => some (.str (String.mk body), rest)
         | Option.none => Option.none) := rfl

/-- Step: an array opener. -/
theorem parseJVal_lbrack (f : Nat) (r : List Char) :
    parseJVal (f + 1) ('[' :: r) = parseJElemsStart f (skipWS r) := rfl

/-- Step: an object opener. -/
theorem parseJVal_lbrace (f : Nat) (r : List Char) :
    parseJVal (f + 1) ('{' :: r) = parseJMembersStart f (skipWS r) := rfl

/-- Step: the `true` literal. -/
theorem parseJVal_true (f : Nat) (r : List Char) :
    parseJVal (f + 1) ('t' :: 'r' :: 'u' :: 'e' :: r) = some (.bool true, r) := rfl

/-- Step: the `false` literal. -/
theorem parseJVal_false (f : Nat) (r : List Char) :
    parseJVal (f + 1) ('f' :: 'a' :: 'l' :: 's' :: 'e' :: r) = some (.bool false, r) := rfl

/-- Step: the `null` literal. -/
theorem parseJVal_null (f : Nat) (r : List Char) :
    parseJVal (f + 1) ('n' :: 'u' :: 'l' :: 'l' :: r) = some (.none, r) := rfl

/-- Step: an empty array closes immediately. -/
theorem parseJElemsStart_rbrack (f : Nat) (r : List Char) :
    parseJElemsStart (f + 1) (']' :: r) = some (.list [], r) := rfl

/-- Step: a non-`]` head starts the first element. -/
theorem parseJElemsStart_ne (f : Nat) (c : Char) (r : List Char) (h : ¬c = ']') :
    parseJElemsStart (f + 1) (c :: r)
      = (match parseJVal f (c :: r) with
         | some (v, r2) => parseJElemsRest f [v] (skipWS r2)
         | Option.none => Option.none) := by
  have key : ∀ l, l = c :: r → parseJElemsStart (f + 1) l
      = (match parseJVal f l with
         | some (v, r2) => parseJElemsRest f [v] (skipWS r2)
         | Option.none => Option.none) := by
    intro l hl
    rw [parseJElemsStart.eq_def]
    split
    next heq => exact absurd heq (by omega)
    next g heq =>
      obtain rfl : g = f := by omega
      split
      next heq2 => cases hl; exact absurd rfl h
      next => rfl
  exact key (c :: r) rfl

/-- Step: a comma continues the element list. -/
theorem parseJElemsRest_comma (f : Nat) (acc : List PyVal) (r : List Char) :
    parseJElemsRest (f + 1) acc (',' :: r)
      = (match parseJVal f (skipWS r) with
         | some (v, r2) => parseJElemsRest f (acc ++ [v]) (skipWS r2)
         | Option.none => Option.none) := rfl

/-- Step: a bracket closes the element list. -/
theorem parseJElemsRest_rbrack (f : Nat) (acc : List PyVal) (r : List Char) :
    parseJElemsRest (f + 1) acc (']' :: r) = some (.list acc, r) := rfl

/-- Step: an empty object closes immediately. -/
theorem parseJMembersStart_rbrace (f : Nat) (r : List Char) :
    parseJMembersStart (f + 1) ('}' :: r) = some (.dict [], r) := rfl

/-- Step: a quote starts the first member key. -/
theorem parseJMembersStart_quote (f : Nat) (r : List Char) :
    parseJMembersStart (f + 1) ('"' :: r)
      = (match parseJStr f r with
         | some (k, r2) => parseJMemberVal f [] (String.mk k) (skipWS r2)
         | Option.none => Option.none) := rfl

/-- Step: a colon introduces a member value. -/
theorem parseJMemberVal_colon (f : Nat) (acc : List (String × PyVal)) (k : String)
    (r : List Char) :
    parseJMemberVal (f + 1) acc k (':' :: r)
      = (match parseJVal f (skipWS r) with
         | some (v, r2) => parseJMembersRest f (dictInsert acc k v) (skipWS r2)
         | Option.none => Option.none) := rfl

/-- Step: a comma continues the member list. -/
theorem parseJMembersRest_comma (f : Nat) (acc : List (String × PyVal)) (r : List Char) :
    parseJMembersRest (f + 1) acc (',' :: r)
      = (match skipWS r with
         | '"' :: r2 =>
           match parseJStr f r2 with
           | some (k, r3) => parseJMemberVal f acc (String.mk k) (skipWS r3)
           | Option.none => Option.none
         | _ => Option.none) := rfl

/-- Step: a brace closes the member list. -/
theorem parseJMembersRest_rbrace (f : Nat) (acc : List (String × PyVal)) (r : List Char) :
    parseJMembersRest (f + 1) acc ('}' :: r) = some (.dict acc, r) := rfl

/-- Bounds carried by a digit character. -/
theorem isDigitChar_toNat (c : Char) (h : isDigitChar c = true) :
    48 ≤ c.toNat ∧ c.toNat ≤ 57 := of_decide_eq_true h

/-- A character in the sign-or-digit band differs from any character outside
it. -/
theorem char_ne_of_out (c d : Char) (h : 45 ≤ c.toNat ∧ c.toNat ≤ 57)
    (hd : d.toNat < 45 ∨ 57 < d.toNat) : ¬c = d := by
  intro he
  rw [he] at h
  omega

/-- The head of a rendered number lies in the sign-or-digit band. -/
theorem numHead_bounds (c : Char) (h : c = '-' ∨ isDigitChar c = true) :
    45 ≤ c.toNat ∧ c.toNat ≤ 57 := by
  rcases h with h | h
  · subst h; decide
  · have := isDigitChar_toNat c h
    omega

/-- A sign-or-digit character is not JSON whitespace. -/
theorem isJsonWS_num (c : Char) (h : 45 ≤ c.toNat ∧ c.toNat ≤ 57) :
    isJsonWS c = false := by
  rw [isJsonWS, decide_eq_false (char_ne_of_out c ' ' h (by decide)),
    decide_eq_false (char_ne_of_out c '\t' h (by decide)),
    decide_eq_false (char_ne_of_out c '\n' h (by decide)),
    decide_eq_false (char_ne_of_out c '\r' h (by decide))]
  rfl

/-- `skipWS` is the identity on input starting with a non-whitespace
character. -/
theorem skipWS_cons (c : Char) (r : List Char) (h : isJsonWS c = false) :
    skipWS (c :: r) = c :: r := by
  rw [skipWS, if_neg (by rw [h]; exact Bool.false_ne_true)]

/-- `parseJVal` hands a sign-or-digit head to the number parser. -/
theorem parseJVal_num (f : Nat) (c : Char) (r : List Char)
    (h : c = '-' ∨ isDigitChar c = true) :
    parseJVal (f + 1) (c :: r) = parseJNum (c :: r) := by
  have hb := numHead_bounds c h
  rw [parseJVal_cons,
    if_neg (char_ne_of_out c '{' hb (by decide)),
    if_neg (char_ne_of_out c '[' hb (by decide)),
    if_neg (char_ne_of_out c '"' hb (by decide)),
    if_neg (char_ne_of_out c 't' hb (by decide)),
    if_neg (char_ne_of_out c 'f' hb (by decide)),
    if_neg (char_ne_of_out c 'n' hb (by decide)),
    if_pos h]

/-- The head of a rendered number, explicitly. -/
theorem numHead_shape (neg : Bool) (c : Char) (cs tail : List Char)
    (hc : isDigitChar c = true) :
    ∃ c0 r0, (if neg then ['-'] else []) ++ (c :: cs) ++ tail = c0 :: r0
      ∧ (c0 = '-' ∨ isDigitChar c0 = true) := by
  cases neg
  · exact ⟨c, cs ++ tail, by simp, Or.inr hc⟩
  · exact ⟨'-', (c :: cs) ++ tail, by simp, Or.inl rfl⟩

/-- A dumped element list splits into its first element and the rest. -/
theorem dumpElems_cons (x : PyVal) (xs : List PyVal) :
    dumpElems (x :: xs) = dumpVal x ++ sepElems xs := by
  cases xs with
  | nil => simp [dumpElems, sepElems]
  | cons y ys => rfl

/-- A dumped member list splits into its first member and the rest. -/
theorem dumpMembers_cons (k : String) (x : PyVal) (ms : List (String × PyVal)) :
    dumpMembers ((k, x) :: ms)
      = ('"' :: escapeChars k.data ++ '"' :: ':' :: ' ' :: dumpVal x) ++ sepMembers ms := by
  cases ms with
  | nil => simp [dumpMembers, sepMembers]
  | cons m ms2 => rfl

/-- The first character of a dumped value: it exists, is not whitespace and
is not `]`. -/
theorem dumpVal_head (v : PyVal) (hv : pyWFb v = true) :
    ∃ c r, dumpVal v = c :: r ∧ isJsonWS c = false ∧ ¬c = ']' := by
  cases v with
  | str s => exact ⟨'"', escapeChars s.data ++ ['"'], rfl, rfl, by decide⟩
  | int n =>
    obtain ⟨neg, c, cs, hshape, hc, -, -⟩ := intToDecimal_shape n
    cases neg
    · refine ⟨c, cs, by rw [show dumpVal (.int n) = (intToDecimal n).data from rfl, hshape]; rfl,
        ?_, ?_⟩
      · exact isJsonWS_num c (by have := isDigitChar_toNat c hc; omega)
      · exact char_ne_of_out c ']' (by have := isDigitChar_toNat c hc; omega) (by decide)
    · exact ⟨'-', c :: cs,
        by rw [show dumpVal (.int n) = (intToDecimal n).data from rfl, hshape]; rfl,
        rfl, by decide⟩
  | float q =>
    have hq : 0 < q.den := of_decide_eq_true hv
    obtain ⟨neg, c, cs, fs, hshape, hc, -, -, -, -⟩ := pyStrOfFloat_shape q hq
    cases neg
    · refine ⟨c, cs ++ '.' :: fs,
        by rw [show dumpVal (.float q) = (pyStrOfFloat q).data from rfl, hshape]; rfl, ?_, ?_⟩
      · exact isJsonWS_num c (by have := isDigitChar_toNat c hc; omega)
      · exact char_ne_of_out c ']' (by have := isDigitChar_toNat c hc; omega) (by decide)
    · exact ⟨'-', (c :: cs) ++ '.' :: fs,
        by rw [show dumpVal (.float q) = (pyStrOfFloat q).data from rfl, hshape]; rfl,
        rfl, by decide⟩
  | bool b =>
    cases b
    · exact ⟨'f', ['a', 'l', 's', 'e'], rfl, rfl, by decide⟩
    · exact ⟨'t', ['r', 'u', 'e'], rfl, rfl, by decide⟩
  | none => exact ⟨'n', ['u', 'l', 'l'], rfl, rfl, by decide⟩
  | list xs => exact ⟨'[', dumpElems xs ++ [']'], rfl, rfl, by decide⟩
  | dict kvs => exact ⟨'{', dumpMembers kvs ++ ['}'], rfl, rfl, by decide⟩

/-- `skipWS` is the identity on a dumped value (plus anything after it). -/
theorem skipWS_dump (v : PyVal) (T : List Char) (hv : pyWFb v = true) :
    skipWS (dumpVal v ++ T) = dumpVal v ++ T := by
  obtain ⟨c, r, he, hws, -⟩ := dumpVal_head v hv
  rw [he, List.cons_append]
  exact skipWS_cons c (r ++ T) hws

/-- Every element's dump is no longer than the dump of the whole element
list. -/
theorem dumpElems_elem_le : ∀ (xs : List PyVal) (y : PyVal), y ∈ xs →
    (dumpVal y).length ≤ (dumpElems xs).length := by
  intro xs
  induction xs with
  | nil => intro y hy; cases hy
  | cons x xs ih =>
    intro y hy
    rw [dumpElems_cons, List.length_append]
    rcases List.mem_cons.mp hy with rfl | hy2
    · omega
    · have h2 := ih y hy2
      cases xs with
      | nil => cases hy2
      | cons z zs =>
        have hs : (sepElems (z :: zs)).length = (dumpElems (z :: zs)).length + 2 := rfl
        omega

/-- Every member value's dump is no longer than the dump of the whole member
list. -/
theorem dumpMembers_elem_le : ∀ (ms : List (String × PyVal)) (p : String × PyVal),
    p ∈ ms → (dumpVal p.2).length ≤ (dumpMembers ms).length := by
  intro ms
  induction ms with
  | nil => intro p hp; cases hp
  | cons m ms2 ih =>
    intro p hp
    obtain ⟨k, x⟩ := m
    rw [dumpMembers_cons, List.length_append]
    rcases List.mem_cons.mp hp with rfl | hp2
    · simp only [List.length_append, List.length_cons]
      omega
    · have h2 := ih p hp2
      cases ms2 with
      | nil => cases hp2
      | cons n ns =>
        have hs : (sepMembers (n :: ns)).length = (dumpMembers (n :: ns)).length + 2 := rfl
        omega

/-- Parsing inverts dumping: the dump of any well-formed value, followed by
number-safe input, parses back to some value and leaves exactly the trailing
input.  The outer `N` bounds the dump length for the strong induction. -/
theorem parseJVal_dump : ∀ (N : Nat) (v : PyVal), (dumpVal v).length ≤ N → pyWFb v = true →
    ∀ (rest : List Char) (f : Nat), numSafe rest = true → 2 * (dumpVal v).length ≤ f →
    ∃ j, parseJVal f (dumpVal v ++ rest) = some (j, rest) := by
  intro N
  induction N with
  | zero =>
    intro v hlen hv rest f hrest hf
    obtain ⟨c, r, he, -, -⟩ := dumpVal_head v hv
    rw [he, List.length_cons] at hlen
    omega
  | succ M ih =>
    intro v hlen hv rest f hrest hf
    cases v with
    | str s =>
      have hlen2 : (dumpVal (.str s)).length = (escapeChars s.data).length + 2 := by
        show (('"' :: escapeChars s.data) ++ ['"']).length = _
        simp
      obtain ⟨g, rfl⟩ : ∃ g, f = g + 1 := ⟨f - 1, by omega⟩
      have heq : dumpVal (.str s) ++ rest = '"' :: (escapeChars s.data ++ '"' :: rest) := by
        show (('"' :: escapeChars s.data) ++ ['"']) ++ rest = _
        simp
      obtain ⟨body, hb⟩ := parseJStr_escape s.data rest g (by omega)
      refine ⟨.str (String.mk body), ?_⟩
      rw [heq, parseJVal_quote, hb]
    | int n =>
      obtain ⟨neg, c, cs, hshape, hc, hcs, hzero⟩ := intToDecimal_shape n
      have hd : dumpVal (.int n) = (intToDecimal n).data := rfl
      obtain ⟨g, rfl⟩ : ∃ g, f = g + 1 := ⟨f - 1, by
        rw [hd, hshape] at hf
        cases neg <;> simp at hf <;> omega⟩
      obtain ⟨c0, r0, he, hcd⟩ := numHead_shape neg c cs rest hc
      have hlist : dumpVal (.int n) ++ rest = c0 :: r0 := by
        rw [hd, hshape]
        exact he
      obtain ⟨v1, hv1⟩ := parseJNum_intToDecimal n rest hrest
      refine ⟨v1, ?_⟩
      rw [hlist, parseJVal_num g c0 r0 hcd, ← hlist, hd, hv1]
    | float q =>
      have hq : 0 < q.den := of_decide_eq_true hv
      obtain ⟨neg, c, cs, fs, hshape, hc, hcs, hzero, hfs0, hfs⟩ := pyStrOfFloat_shape q hq
      have hd : dumpVal (.float q) = (pyStrOfFloat q).data := rfl
      obtain ⟨g, rfl⟩ : ∃ g, f = g + 1 := ⟨f - 1, by
        rw [hd, hshape] at hf
        cases neg <;> simp at hf <;> omega⟩
      obtain ⟨c0, r0, he, hcd⟩ := numHead_shape neg c cs ('.' :: fs) hc
      have hlist : dumpVal (.float q) ++ rest = c0 :: (r0 ++ rest) := by
        rw [hd, hshape, he]
        rfl
      obtain ⟨v1, hv1⟩ := parseJNum_pyStrOfFloat q hq rest hrest
      refine ⟨v1, ?_⟩
      rw [hlist, parseJVal_num g c0 (r0 ++ rest) hcd, ← hlist, hd, hv1]
    | bool b =>
      cases b
      · obtain ⟨g, rfl⟩ : ∃ g, f = g + 1 := ⟨f - 1, by
          have h5 : (dumpVal (.bool false)).length = 5 := rfl
          omega⟩
        exact ⟨.bool false, by
          rw [show dumpVal (.bool false) ++ rest = 'f' :: 'a' :: 'l' :: 's' :: 'e' :: rest
            from rfl]
          exact parseJVal_false g rest⟩
      · obtain ⟨g, rfl⟩ : ∃ g, f = g + 1 := ⟨f - 1, by
          have h4 : (dumpVal (.bool true)).length = 4 := rfl
          omega⟩
        exact ⟨.bool true, by
          rw [show dumpVal (.bool true) ++ rest = 't' :: 'r' :: 'u' :: 'e' :: rest from rfl]
          exact parseJVal_true g rest⟩
    | none =>
      obtain ⟨g, rfl⟩ : ∃ g, f = g + 1 := ⟨f - 1, by
        have h4 : (dumpVal PyVal.none).length = 4 := rfl
        omega⟩
      exact ⟨.none, by
        rw [show dumpVal PyVal.none ++ rest = 'n' :: 'u' :: 'l' :: 'l' :: rest from rfl]
        exact parseJVal_null g rest⟩
    | list xs =>
      cases xs with
      | nil =>
        obtain ⟨g, rfl⟩ : ∃ g, f = g + 1 + 1 := ⟨f - 2, by
          have h2 : (dumpVal (.list [])).length = 2 := rfl
          omega⟩
        refine ⟨.list [], ?_⟩
        rw [show dumpVal (.list []) ++ rest = '[' :: ']' :: rest from rfl, parseJVal_lbrack]
        exact parseJElemsStart_rbrack g rest
      | cons x xs2 =>
        rw [show pyWFb (.list (x :: xs2)) = pyWFbList (x :: xs2) from rfl, pyWFbList,
          Bool.and_eq_true] at hv
        obtain ⟨hxw, hxsw⟩ := hv
        have hlen2 : (dumpVal (.list (x :: xs2))).length
            = (dumpVal x).length + (sepElems xs2).length + 2 := by
          show (('[' :: dumpElems (x :: xs2)) ++ [']']).length = _
          rw [dumpElems_cons]
          simp only [List.length_append, List.length_cons, List.length_nil]
        have loop : ∀ (ys : List PyVal), pyWFbList ys = true →
            (∀ y ∈ ys, (dumpVal y).length ≤ M) →
            ∀ (acc : List PyVal) (g : Nat), 2 * (sepElems ys).length + 1 ≤ g →
            ∃ acc2, parseJElemsRest g acc (sepElems ys ++ ']' :: rest)
              = some (.list acc2, rest) := by
          intro ys
          induction ys with
          | nil =>
            intro _ _ acc g hg
            obtain ⟨g2, rfl⟩ : ∃ g2, g = g2 + 1 := ⟨g - 1, by omega⟩
            exact ⟨acc, parseJElemsRest_rbrack g2 acc rest⟩
          | cons y ys2 ihl =>
            intro hwf hbound acc g hg
            rw [pyWFbList, Bool.and_eq_true] at hwf
            obtain ⟨hyw, hysw⟩ := hwf
            have hsl : (sepElems (y :: ys2)).length
                = (dumpVal y).length + (sepElems ys2).length + 2 := by
              show (',' :: ' ' :: dumpElems (y :: ys2)).length = _
              rw [dumpElems_cons]
              simp only [List.length_cons, List.length_append]
            obtain ⟨g2, rfl⟩ : ∃ g2, g = g2 + 1 := ⟨g - 1, by omega⟩
            have heq2 : sepElems (y :: ys2) ++ ']' :: rest
                = ',' :: ' ' :: (dumpVal y ++ (sepElems ys2 ++ ']' :: rest)) := by
              show (',' :: ' ' :: dumpElems (y :: ys2)) ++ ']' :: rest = _
              rw [dumpElems_cons]
              simp
            obtain ⟨j1, hj1⟩ := ih y (hbound y (List.mem_cons_self y ys2)) hyw
                (sepElems ys2 ++ ']' :: rest) g2 (by cases ys2 <;> rfl) (by omega)
            obtain ⟨acc2, hacc⟩ := ihl hysw (fun z hz => hbound z (List.mem_cons_of_mem y hz))
                (acc ++ [j1]) g2 (by omega)
            refine ⟨acc2, ?_⟩
            rw [heq2, parseJElemsRest_comma]
            have hws1 : skipWS (' ' :: (dumpVal y ++ (sepElems ys2 ++ ']' :: rest)))
                = dumpVal y ++ (sepElems ys2 ++ ']' :: rest) := by
              show skipWS (dumpVal y ++ (sepElems ys2 ++ ']' :: rest)) = _
              exact skipWS_dump y _ hyw
            rw [hws1, hj1]
            show parseJElemsRest g2 (acc ++ [j1]) (skipWS (sepElems ys2 ++ ']' :: rest))
              = some (.list acc2, rest)
            rw [show skipWS (sepElems ys2 ++ ']' :: rest) = sepElems ys2 ++ ']' :: rest from
              by cases ys2 <;> rfl]
            exact hacc
        obtain ⟨g, rfl⟩ : ∃ g, f = g + 1 + 1 := ⟨f - 2, by omega⟩
        obtain ⟨c, r, hhead, hws, hneq⟩ := dumpVal_head x hxw
        have e1 : dumpVal x ++ (sepElems xs2 ++ ']' :: rest)
            = c :: (r ++ (sepElems xs2 ++ ']' :: rest)) := by
          rw [hhead]
          rfl
        obtain ⟨j1, hj1⟩ := ih x (by omega) hxw (sepElems xs2 ++ ']' :: rest) g
            (by cases xs2 <;> rfl) (by omega)
        obtain ⟨acc2, hacc⟩ := loop xs2 hxsw (fun z hz => by
            have h1 := dumpElems_elem_le xs2 z hz
            cases xs2 with
            | nil => cases hz
            | cons w ws =>
              have hsw : (sepElems (w :: ws)).length = (dumpElems (w :: ws)).length + 2 := rfl
              omega) [j1] g (by omega)
        refine ⟨.list acc2, ?_⟩
        have heq : dumpVal (.list (x :: xs2)) ++ rest
            = '[' :: (dumpVal x ++ (sepElems xs2 ++ ']' :: rest)) := by
          show (('[' :: dumpElems (x :: xs2)) ++ [']']) ++ rest = _
          rw [dumpElems_cons]
          simp
        rw [heq, parseJVal_lbrack]
        rw [show skipWS (dumpVal x ++ (sepElems xs2 ++ ']' :: rest))
            = dumpVal x ++ (sepElems xs2 ++ ']' :: rest) from skipWS_dump x _ hxw]
        rw [e1, parseJElemsStart_ne g c _ hneq, ← e1, hj1]
        show parseJElemsRest g [j1] (skipWS (sepElems xs2 ++ ']' :: rest))
          = some (.list acc2, rest)
        rw [show skipWS (sepElems xs2 ++ ']' :: rest) = sepElems xs2 ++ ']' :: rest from
          by cases xs2 <;> rfl]
        exact hacc
    | dict kvs =>
      cases kvs with
      | nil =>
        obtain ⟨g, rfl⟩ : ∃ g, f = g + 1 + 1 := ⟨f - 2, by
          have h2 : (dumpVal (.dict [])).length = 2 := rfl
          omega⟩
        refine ⟨.dict [], ?_⟩
        rw [show dumpVal (.dict []) ++ rest = '{' :: '}' :: rest from rfl, parseJVal_lbrace]
        exact parseJMembersStart_rbrace g rest
      | cons m ms =>
        obtain ⟨k, x⟩ := m
        rw [show pyWFb (.dict ((k, x) :: ms)) = pyWFbMembers ((k, x) :: ms) from rfl,
          pyWFbMembers, Bool.and_eq_true] at hv
        obtain ⟨hxw, hmsw⟩ := hv
        have hlen2 : (dumpVal (.dict ((k, x) :: ms))).length
            = (escapeChars k.data).length + (dumpVal x).length + (sepMembers ms).length + 6 := by
          show (('{' :: dumpMembers ((k, x) :: ms)) ++ ['}']).length = _
          rw [dumpMembers_cons]
          simp only [List.length_append, List.length_cons, List.length_nil]
          omega
        have loopM : ∀ (ns : List (String × PyVal)), pyWFbMembers ns = true →
            (∀ p ∈ ns, (dumpVal p.2).length ≤ M) →
            ∀ (acc : List (String × PyVal)) (g : Nat), 2 * (sepMembers ns).length + 1 ≤ g →
            ∃ acc2, parseJMembersRest g acc (sepMembers ns ++ '}' :: rest)
              = some (.dict acc2, rest) := by
          intro ns
          induction ns with
          | nil =>
            intro _ _ acc g hg
            obtain ⟨g2, rfl⟩ : ∃ g2, g = g2 + 1 := ⟨g - 1, by omega⟩
            exact ⟨acc, parseJMembersRest_rbrace g2 acc rest⟩
          | cons p ns2 ihm =>
            obtain ⟨k2, y⟩ := p
            intro hwf hbound acc g hg
            rw [pyWFbMembers, Bool.and_eq_true] at hwf
            obtain ⟨hyw, hnsw⟩ := hwf
            have hsl : (sepMembers ((k2, y) :: ns2)).length
                = (escapeChars k2.data).length + (dumpVal y).length
                  + (sepMembers ns2).length + 6 := by
              show (',' :: ' ' :: dumpMembers ((k2, y) :: ns2)).length = _
              rw [dumpMembers_cons]
              simp only [List.length_cons, List.length_append, List.length_nil]
              omega
            obtain ⟨g2, rfl⟩ : ∃ g2, g = g2 + 1 + 1 := ⟨g - 2, by omega⟩
            have heq2 : sepMembers ((k2, y) :: ns2) ++ '}' :: rest
                = ',' :: ' ' :: ('"' :: (escapeChars k2.data
                    ++ '"' :: (':' :: ' ' :: (dumpVal y ++ (sepMembers ns2 ++ '}' :: rest))))) := by
              show (',' :: ' ' :: dumpMembers ((k2, y) :: ns2)) ++ '}' :: rest = _
              rw [dumpMembers_cons]
              simp
            obtain ⟨kb, hkb⟩ := parseJStr_escape k2.data
                (':' :: ' ' :: (dumpVal y ++ (sepMembers ns2 ++ '}' :: rest))) (g2 + 1) (by omega)
            obtain ⟨j1, hj1⟩ := ih y (hbound (k2, y) (List.mem_cons_self _ _)) hyw
                (sepMembers ns2 ++ '}' :: rest) g2 (by cases ns2 <;> rfl) (by omega)
            obtain ⟨acc2, hacc⟩ := ihm hnsw (fun p2 hp2 => hbound p2 (List.mem_cons_of_mem _ hp2))
                (dictInsert acc (String.mk kb) j1) g2 (by omega)
            refine ⟨acc2, ?_⟩
            rw [heq2, parseJMembersRest_comma]
            show (match parseJStr (g2 + 1) (escapeChars k2.data
                ++ '"' :: (':' :: ' ' :: (dumpVal y ++ (sepMembers ns2 ++ '}' :: rest)))) with
              | some (kk, r3) => parseJMemberVal (g2 + 1) acc (String.mk kk) (skipWS r3)
              | Option.none => Option.none) = some (.dict acc2, rest)
            rw [hkb]
            show parseJMemberVal (g2 + 1) acc (String.mk kb)
                (skipWS (':' :: ' ' :: (dumpVal y ++ (sepMembers ns2 ++ '}' :: rest))))
              = some (.dict acc2, rest)
            rw [show skipWS (':' :: ' ' :: (dumpVal y ++ (sepMembers ns2 ++ '}' :: rest)))
                = ':' :: ' ' :: (dumpVal y ++ (sepMembers ns2 ++ '}' :: rest)) from rfl,
              parseJMemberVal_colon]
            have hws1 : skipWS (' ' :: (dumpVal y ++ (sepMembers ns2 ++ '}' :: rest)))
                = dumpVal y ++ (sepMembers ns2 ++ '}' :: rest) := by
              show skipWS (dumpVal y ++ (sepMembers ns2 ++ '}' :: rest)) = _
              exact skipWS_dump y _ hyw
            rw [hws1, hj1]
            show parseJMembersRest g2 (dictInsert acc (String.mk kb) j1)
                (skipWS (sepMembers ns2 ++ '}' :: rest)) = some (.dict acc2, rest)
            rw [show skipWS (sepMembers ns2 ++ '}' :: rest) = sepMembers ns2 ++ '}' :: rest from
              by cases ns2 <;> rfl]
            exact hacc
        obtain ⟨g, rfl⟩ : ∃ g, f = g + 1 + 1 + 1 := ⟨f - 3, by omega⟩
        obtain ⟨kb, hkb⟩ := parseJStr_escape k.data
            (':' :: ' ' :: (dumpVal x ++ (sepMembers ms ++ '}' :: rest))) (g + 1) (by omega)
        obtain ⟨j1, hj1⟩ := ih x (by omega) hxw (sepMembers ms ++ '}' :: rest) g
            (by cases ms <;> rfl) (by omega)
        obtain ⟨acc2, hacc⟩ := loopM ms hmsw (fun p hp => by
            have h1 := dumpMembers_elem_le ms p hp
            cases ms with
            | nil => cases hp
            | cons w ws =>
              have hsw : (sepMembers (w :: ws)).length = (dumpMembers (w :: ws)).length + 2 := rfl
              omega) (dictInsert [] (String.mk kb) j1) g (by omega)
        refine ⟨.dict acc2, ?_⟩
        have heq : dumpVal (.dict ((k, x) :: ms)) ++ rest
            = '{' :: ('"' :: (escapeChars k.data
                ++ '"' :: (':' :: ' ' :: (dumpVal x ++ (sepMembers ms ++ '}' :: rest))))) := by
          show (('{' :: dumpMembers ((k, x) :: ms)) ++ ['}']) ++ rest = _
          rw [dumpMembers_cons]
          simp
        rw [heq, parseJVal_lbrace]
        show parseJMembersStart (g + 1 + 1) ('"' :: (escapeChars k.data
            ++ '"' :: (':' :: ' ' :: (dumpVal x ++ (sepMembers ms ++ '}' :: rest)))))
          = some (.dict acc2, rest)
        rw [parseJMembersStart_quote, hkb]
        show parseJMemberVal (g + 1) [] (String.mk kb)
            (skipWS (':' :: ' ' :: (dumpVal x ++ (sepMembers ms ++ '}' :: rest))))
          = some (.dict acc2, rest)
        rw [show skipWS (':' :: ' ' :: (dumpVal x ++ (sepMembers ms ++ '}' :: rest)))
            = ':' :: ' ' :: (dumpVal x ++ (sepMembers ms ++ '}' :: rest)) from rfl,
          parseJMemberVal_colon]
        have hws1 : skipWS (' ' :: (dumpVal x ++ (sepMembers ms ++ '}' :: rest)))
            = dumpVal x ++ (sepMembers ms ++ '}' :: rest) := by
          show skipWS (dumpVal x ++ (sepMembers ms ++ '}' :: rest)) = _
          exact skipWS_dump x _ hxw
        rw [hws1, hj1]
        show parseJMembersRest g (dictInsert [] (String.mk kb) j1)
            (skipWS (sepMembers ms ++ '}' :: rest)) = some (.dict acc2, rest)
        rw [show skipWS (sepMembers ms ++ '}' :: rest) = sepMembers ms ++ '}' :: rest from
          by cases ms <;> rfl]
        exact hacc

/-! ## Every parsed value is well-formed -/

/-- `parseJNum` only builds floats with positive (power-of-ten)
denominators. -/
theorem parseJNum_WF (l : List Char) (v : PyVal) (r : List Char)
    (h : parseJNum l = some (v, r)) : pyWFb v = true := by
  simp only [parseJNum] at h
  split at h
  · exact Option.noConfusion h
  · split at h
    · exact Option.noConfusion h
    · split at h
      · exact Option.noConfusion h
      · split at h
        · cases h
          rfl
        · split at h <;> split at h <;> cases h <;>
            first
              | exact decide_eq_true (pow_pos (by norm_num) _)
              | exact decide_eq_true
                  (mul_pos (pow_pos (by norm_num) _) (pow_pos (by norm_num) _))

/-- Well-formedness of element lists is preserved by appending a single
well-formed element. -/
theorem pyWFbList_snoc (xs : List PyVal) (v : PyVal) (hx : pyWFbList xs = true)
    (hv : pyWFb v = true) : pyWFbList (xs ++ [v]) = true := by
  induction xs with
  | nil => simp [pyWFbList, hv]
  | cons x xs ih =>
    rw [pyWFbList, Bool.and_eq_true] at hx
    rw [List.cons_append, pyWFbList, Bool.and_eq_true]
    exact ⟨hx.1, ih hx.2⟩

/-- `dictInsert` preserves member well-formedness. -/
theorem pyWFbMembers_dictInsert (acc : List (String × PyVal)) (k : String) (v : PyVal)
    (ha : pyWFbMembers acc = true) (hv : pyWFb v = true) :
    pyWFbMembers (dictInsert acc k v) = true := by
  induction acc with
  | nil => simp [dictInsert, pyWFbMembers, hv]
  | cons m rest ih =>
    obtain ⟨k2, v2⟩ := m
    rw [pyWFbMembers, Bool.and_eq_true] at ha
    rw [dictInsert]
    split
    · rw [pyWFbMembers, Bool.and_eq_true]
      exact ⟨hv, ha.2⟩
    · rw [pyWFbMembers, Bool.and_eq_true]
      exact ⟨ha.1, ih ha.2⟩

/-- One-step unfolding of `parseJElemsStart` at successor fuel. -/
theorem parseJElemsStart_succ (f : Nat) (l : List Char) :
    parseJElemsStart (f + 1) l
      = (match l with
         | ']' :: r => some (.list [], r)
         | _ =>
           match parseJVal f l with
           | some (v, r) => parseJElemsRest f [v] (skipWS r)
           | Option.none => Option.none) := rfl

/-- One-step unfolding of `parseJElemsRest` at successor fuel. -/
theorem parseJElemsRest_succ (f : Nat) (acc : List PyVal) (l : List Char) :
    parseJElemsRest (f + 1) acc l
      = (match l with
         | ',' :: r =>
           match parseJVal f (skipWS r) with
           | some (v, r2) => parseJElemsRest f (acc ++ [v]) (skipWS r2)
           | Option.none => Option.none
         | ']' :: r => some (.list acc, r)
         | _ => Option.none) := rfl

/-- One-step unfolding of `parseJMembersStart` at successor fuel. -/
theorem parseJMembersStart_succ (f : Nat) (l : List Char) :
    parseJMembersStart (f + 1) l
      = (match l with
         | '}' :: r => some (.dict [], r)
         | '"' :: r =>
           match parseJStr f r with
           | some (k, r2) => parseJMemberVal f [] (String.mk k) (skipWS r2)
           | Option.none => Option.none
         | _ => Option.none) := rfl

/-- One-step unfolding of `parseJMemberVal` at successor fuel. -/
theorem parseJMemberVal_succ (f : Nat) (acc : List (String × PyVal)) (k : String)
    (l : List Char) :
    parseJMemberVal (f + 1) acc k l
      = (match l with
         | ':' :: r =>
           match parseJVal f (skipWS r) with
           | some (v, r2) => parseJMembersRest f (dictInsert acc k v) (skipWS r2)
           | Option.none => Option.none
         | _ => Option.none) := rfl

/-- One-step unfolding of `parseJMembersRest` at successor fuel. -/
theorem parseJMembersRest_succ (f : Nat) (acc : List (String × PyVal)) (l : List Char) :
    parseJMembersRest (f + 1) acc l
      = (match l with
         | ',' :: r =>
           match skipWS r with
           | '"' :: r2 =>
             match parseJStr f r2 with
             | some (k, r3) => parseJMemberVal f acc (String.mk k) (skipWS r3)
             | Option.none => Option.none
           | _ => Option.none
         | '}' :: r => some (.dict acc, r)
         | _ => Option.none) := rfl

/-- Every value any of the six parsers produces is well-formed, given
well-formed accumulators. -/
theorem parse_WF : ∀ f : Nat,
    (∀ l v r, parseJVal f l = some (v, r) → pyWFb v = true)
  ∧ (∀ l v r, parseJElemsStart f l = some (v, r) → pyWFb v = true)
  ∧ (∀ acc l v r, pyWFbList acc = true → parseJElemsRest f acc l = some (v, r) →
      pyWFb v = true)
  ∧ (∀ l v r, parseJMembersStart f l = some (v, r) → pyWFb v = true)
  ∧ (∀ acc k l v r, pyWFbMembers acc = true → parseJMemberVal f acc k l = some (v, r) →
      pyWFb v = true)
  ∧ (∀ acc l v r, pyWFbMembers acc = true → parseJMembersRest f acc l = some (v, r) →
      pyWFb v = true) := by
  intro f
  induction f with
  | zero =>
    exact ⟨fun l v r h => Option.noConfusion h, fun l v r h => Option.noConfusion h,
      fun acc l v r _ h => Option.noConfusion h, fun l v r h => Option.noConfusion h,
      fun acc k l v r _ h => Option.noConfusion h, fun acc l v r _ h => Option.noConfusion h⟩
  | succ g ih =>
    obtain ⟨ihV, ihES, ihER, ihMS, ihMV, ihMR⟩ := ih
    refine ⟨?_, ?_, ?_, ?_, ?_, ?_⟩
    · intro l v r h
      cases l with
      | nil => exact Option.noConfusion h
      | cons c cs =>
        rw [parseJVal_cons] at h
        split_ifs at h with h1 h2 h3 h4 h5 h6 h7
        · exact ihMS _ _ _ h
        · exact ihES _ _ _ h
        · split at h
          · cases h
            rfl
          · exact Option.noConfusion h
        · split at h
          · cases h
            rfl
          · exact Option.noConfusion h
        · split at h
          · cases h
            rfl
          · exact Option.noConfusion h
        · split at h
          · cases h
            rfl
          · exact Option.noConfusion h
        · exact parseJNum_WF _ _ _ h
    · intro l v r h
      rw [parseJElemsStart_succ] at h
      split at h
      · cases h
        rfl
      · split at h
        · next heq =>
          refine ihER [_] _ _ _ ?_ h
          rw [pyWFbList, Bool.and_eq_true]
          exact ⟨ihV _ _ _ heq, rfl⟩
        · exact Option.noConfusion h
    · intro acc l v r hacc h
      rw [parseJElemsRest_succ] at h
      split at h
      · split at h
        · next heq =>
          exact ihER _ _ _ _ (pyWFbList_snoc _ _ hacc (ihV _ _ _ heq)) h
        · exact Option.noConfusion h
      · cases h
        exact hacc
      · exact Option.noConfusion h
    · intro l v r h
      rw [parseJMembersStart_succ] at h
      split at h
      · cases h
        rfl
      · split at h
        · exact ihMV [] _ _ _ _ rfl h
        · exact Option.noConfusion h
      · exact Option.noConfusion h
    · intro acc k l v r hacc h
      rw [parseJMemberVal_succ] at h
      split at h
      · split at h
        · next heq =>
          exact ihMR _ _ _ _ (pyWFbMembers_dictInsert _ _ _ hacc (ihV _ _ _ heq)) h
        · exact Option.noConfusion h
      · exact Option.noConfusion h
    · intro acc l v r hacc h
      rw [parseJMembersRest_succ] at h
      split at h
      · split at h
        · split at h
          · exact ihMV _ _ _ _ _ hacc h
          · exact Option.noConfusion h
        · exact Option.noConfusion h
      · cases h
        exact hacc
      · exact Option.noConfusion h

/-- Everything `json.loads` returns is well-formed. -/
theorem json_loads_WF (s : String) (j : PyVal) (h : json_loads s = some j) :
    pyWFb j = true := by
  rw [json_loads, json_loads_chars] at h
  split at h
  · next heq =>
    split_ifs at h
    cases h
    exact (parse_WF _).1 _ _ _ heq
  · exact Option.noConfusion h

/-- The dump of every well-formed value parses back with `json.loads`. -/
theorem loads_dumps (v : PyVal) (hv : pyWFb v = true) :
    ∃ j, json_loads (json_dumps v) = some j := by
  obtain ⟨j, hj⟩ := parseJVal_dump (dumpVal v).length v le_rfl hv [] (2 * (dumpVal v).length + 4)
    rfl (by omega)
  rw [List.append_nil] at hj
  refine ⟨j, ?_⟩
  rw [json_loads, show (json_dumps v).data = dumpVal v from rfl, json_loads_chars]
  have hws : skipWS (dumpVal v) = dumpVal v := by
    have h2 := skipWS_dump v [] hv
    rw [List.append_nil] at h2
    exact h2
  rw [hws, hj]
  rfl

/-- C6: `transform(v, "json")` succeeds and returns a string that parses as
JSON for every mapping, sequence, or string input that itself parses as
JSON; it fails with `ValueError` ("Invalid JSON string: …") exactly for
string inputs that do not parse; every other scalar is serialized directly
via `json.dumps` and succeeds. -/
theorem C6_json_validity :
    (∀ kvs, pyWFb (PyVal.dict kvs) = true →
        transform_value (.dict kvs) "json" = .ok (json_dumps (.dict kvs))
        ∧ ∃ p, json_loads (json_dumps (.dict kvs)) = some p)
  ∧ (∀ xs, pyWFb (PyVal.list xs) = true →
        transform_value (.list xs) "json" = .ok (json_dumps (.list xs))
        ∧ ∃ p, json_loads (json_dumps (.list xs)) = some p)
  ∧ (∀ s j, json_loads s = some j →
        transform_value (.str s) "json" = .ok (json_dumps j)
        ∧ ∃ p, json_loads (json_dumps j) = some p)
  ∧ (∀ s, json_loads s = Option.none →
        transform_value (.str s) "json" = .error (.valueError ("Invalid JSON string: " ++ s)))
  ∧ (∀ v, pyWFb v = true → (∀ s, v ≠ PyVal.str s) →
        ∃ out, transform_value v "json" = .ok out) := by
  refine ⟨?_, ?_, ?_, ?_, ?_⟩
  · intro kvs h
    exact ⟨rfl, loads_dumps _ h⟩
  · intro xs h
    exact ⟨rfl, loads_dumps _ h⟩
  · intro s j h
    constructor
    · rw [transform_json_str, h]
    · exact loads_dumps j (json_loads_WF s j h)
  · intro s h
    rw [transform_json_str, h]
  · intro v hv hs
    cases v with
    | str s => exact absurd rfl (hs s)
    | int n => exact ⟨json_dumps (.int n), rfl⟩
    | float q => exact ⟨json_dumps (.float q), rfl⟩
    | bool b => exact ⟨json_dumps (.bool b), rfl⟩
    | none => exact ⟨json_dumps PyVal.none, rfl⟩
    | list xs => exact ⟨json_dumps (.list xs), rfl⟩
    | dict kvs => exact ⟨json_dumps (.dict kvs), rfl⟩

/-- Witness for C6 at concrete inputs: a one-member dict and an unparseable
string. -/
theorem C6_json_validity_witness :
    (transform_value (.dict [("k", PyVal.int 1)]) "json"
        = .ok (json_dumps (.dict [("k", PyVal.int 1)]))
      ∧ ∃ p, json_loads (json_dumps (.dict [("k", PyVal.int 1)])) = some p)
    ∧ transform_value (.str "oops") "json"
        = .error (.valueError ("Invalid JSON string: " ++ "oops")) :=
  ⟨C6_json_validity.1 [("k", PyVal.int 1)] rfl,
   C6_json_validity.2.2.2.1 "oops" rfl⟩
